import Mathlib

/-!
Verification of the plugin registry and URL-resolution engine of the
TVLINK/streamlink code base, together with the HTTP stream close logic.

The embedding follows `src/libs/streamlink/session/plugins.py`
(class `StreamlinkPlugins`) and `src/libs/streamlink/stream/http.py`
(class `HTTPStream`).

Python's `dict[str, type[Plugin]]` preserves insertion order, so it is
embedded as an association list `List (String × Plugin)`:
* `d[k] = v` replaces the value in place when the key is present and
  appends at the end otherwise,
* `d.update(other)` performs `d[k] = v` for every item of `other` in order,
* iteration (`d.items()`) is the list order,
* `d[k]` lookup returns the unique value stored at key `k`.
-/

namespace TVLink

/-- A compiled URL matcher of a plugin: `matcher.pattern.match(url)` is
embedded as a Boolean predicate on the URL string. -/
structure Matcher where
  pattern : String → Bool

/-- A plugin class: for the registry only its `matchers` attribute is
relevant (`plugin.matchers`, a list tried in declaration order). -/
structure Plugin where
  matchers : List Matcher

/-- The registry's `self._plugins : dict[str, type[Plugin]]`, as an
insertion-ordered association list. -/
abbrev Dict := List (String × Plugin)

/-- `k in d` on a Python dict. -/
def dictHasKey (d : Dict) (k : String) : Bool :=
  d.any (fun e => e.1 == k)

/-- `d[k] = v` on a Python dict: replace in place when the key exists,
append otherwise. -/
def dictInsert (d : Dict) (k : String) (v : Plugin) : Dict :=
  if dictHasKey d k then
    d.map (fun e => if e.1 == k then (k, v) else e)
  else
    d ++ [(k, v)]

/-- `d.get(k)` / `d[k]` lookup on a Python dict. -/
def dictGet? (d : Dict) (k : String) : Option Plugin :=
  (d.find? (fun e => e.1 == k)).map (fun e => e.2)

/-- `d.update(other)`: assign every item of `other`, in order. -/
def dictUpdate (d other : Dict) : Dict :=
  other.foldl (fun acc e => dictInsert acc e.1 e.2) d

/-- `d.pop(k, None)`: remove key `k` when present, no-op otherwise. -/
def dictPop (d : Dict) (k : String) : Dict :=
  d.filter (fun e => e.1 != k)

/-- The invariant every Python dict satisfies: keys are unique. -/
abbrev nodupKeys (d : Dict) : Prop :=
  (d.map Prod.fst).Nodup

/-- `plugin.matchers` has a pattern matching `url` (the inner loop of
`match_url` finds a match for this plugin). -/
def pluginMatches (p : Plugin) (url : String) : Bool :=
  p.matchers.any (fun m => m.pattern url)

namespace StreamlinkPlugins

/-- `StreamlinkPlugins.iter_matchers`: yield `(name, plugin.matchers)` for
every loaded plugin whose `matchers` attribute is truthy (non-empty). -/
def iter_matchers (d : Dict) : List (String × List Matcher) :=
  (d.filter (fun e => !e.2.matchers.isEmpty)).map (fun e => (e.1, e.2.matchers))

/-- `StreamlinkPlugins.match_url`: walk `iter_matchers` in registry order;
for the first plugin having a matcher whose pattern matches the URL,
return `(name, self._plugins[name])`; otherwise return `None`. -/
def match_url (d : Dict) (url : String) : Option (String × Plugin) :=
  match (iter_matchers d).find? (fun nm => nm.2.any (fun m => m.pattern url)) with
  | none => none
  | some (name, _) =>
    match dictGet? d name with
    | some p => some (name, p)
    | none => none

end StreamlinkPlugins

/-- Written after the spec's words, for comparison with `match_url`:
resolution "returns the first handler in registry iteration order having
some matching pattern", paired with its name. -/
def resolveFirstSpec (d : Dict) (url : String) : Option (String × Plugin) :=
  d.find? (fun e => pluginMatches e.2 url)

/-! ### Helper lemmas about the dictionary model -/

theorem dictGet?_cons (e : String × Plugin) (d : Dict) (k : String) :
    dictGet? (e :: d) k = if e.1 == k then some e.2 else dictGet? d k := by
  by_cases h : e.1 == k <;> simp [dictGet?, List.find?_cons, h]

/-- On a dict with unique keys, every entry of the tail has a key different
from the head's key. -/
theorem nodupKeys_cons {a : String × Plugin} {rest : Dict} (h : nodupKeys (a :: rest)) :
    (∀ e ∈ rest, e.1 ≠ a.1) ∧ nodupKeys rest := by
  simp only [nodupKeys, List.map_cons, List.nodup_cons] at h
  refine ⟨?_, h.2⟩
  intro e he heq
  exact h.1 (List.mem_map.mpr ⟨e, he, heq⟩)

/-- The outer `find?` of `match_url` over `iter_matchers` agrees with a
direct first-match search over the registry itself. -/
theorem find?_iter_matchers (d : Dict) (url : String) :
    (StreamlinkPlugins.iter_matchers d).find? (fun nm => nm.2.any (fun m => m.pattern url))
      = (d.find? (fun e => pluginMatches e.2 url)).map (fun e => (e.1, e.2.matchers)) := by
  induction d with
  | nil => rfl
  | cons e rest ih =>
    by_cases hemp : e.2.matchers.isEmpty
    · have hm : e.2.matchers = [] := by
        cases h2 : e.2.matchers with
        | nil => rfl
        | cons x xs => rw [h2] at hemp; simp at hemp
      have hp : pluginMatches e.2 url = false := by
        simp [pluginMatches, hm]
      have hfilter : StreamlinkPlugins.iter_matchers (e :: rest)
          = StreamlinkPlugins.iter_matchers rest := by
        simp [StreamlinkPlugins.iter_matchers, List.filter_cons, hemp]
      have h2 : List.find? (fun e => pluginMatches e.2 url) (e :: rest)
          = List.find? (fun e => pluginMatches e.2 url) rest :=
        List.find?_cons_of_neg _ (by simp [hp])
      rw [hfilter, ih, h2]
    · have hfilter : StreamlinkPlugins.iter_matchers (e :: rest)
          = (e.1, e.2.matchers) :: StreamlinkPlugins.iter_matchers rest := by
        simp [StreamlinkPlugins.iter_matchers, List.filter_cons, hemp]
      rw [hfilter]
      by_cases hmatch : pluginMatches e.2 url
      · have h1 : List.find? (fun nm => nm.2.any fun m => m.pattern url)
            ((e.1, e.2.matchers) :: StreamlinkPlugins.iter_matchers rest)
            = some (e.1, e.2.matchers) :=
          List.find?_cons_of_pos _ (by simpa [pluginMatches] using hmatch)
        have h2 : List.find? (fun e => pluginMatches e.2 url) (e :: rest) = some e :=
          List.find?_cons_of_pos _ hmatch
        rw [h1, h2]
        rfl
      · have h1 : List.find? (fun nm => nm.2.any fun m => m.pattern url)
            ((e.1, e.2.matchers) :: StreamlinkPlugins.iter_matchers rest)
            = List.find? (fun nm => nm.2.any fun m => m.pattern url)
                (StreamlinkPlugins.iter_matchers rest) :=
          List.find?_cons_of_neg _ (by simpa [pluginMatches] using hmatch)
        have h2 : List.find? (fun e => pluginMatches e.2 url) (e :: rest)
            = List.find? (fun e => pluginMatches e.2 url) rest :=
          List.find?_cons_of_neg _ (by simpa using hmatch)
        rw [h1, h2, ih]

/-- On a dict with unique keys, looking up the key of an entry returned by
`find?` gives back that entry's value. -/
theorem dictGet?_of_find? (d : Dict) (P : String × Plugin → Bool) (e0 : String × Plugin)
    (hnd : nodupKeys d) (hf : d.find? P = some e0) :
    dictGet? d e0.1 = some e0.2 := by
  induction d with
  | nil => simp at hf
  | cons a rest ih =>
    obtain ⟨hne, hnd'⟩ := nodupKeys_cons hnd
    by_cases ha : P a
    · rw [List.find?_cons_of_pos _ ha] at hf
      have : a = e0 := by simpa using hf
      subst this
      simp [dictGet?, List.find?_cons]
    · rw [List.find?_cons_of_neg _ ha] at hf
      have hmem : e0 ∈ rest := List.mem_of_find?_eq_some hf
      have hne0 : a.1 ≠ e0.1 := fun heq => hne e0 hmem (heq ▸ rfl)
      rw [dictGet?_cons]
      simp only [beq_iff_eq, hne0, if_false]
      exact ih hnd' hf

/-- `match_url` computes the first-match resolution over the registry. -/
theorem match_url_eq_resolveFirstSpec (d : Dict) (url : String) (hnd : nodupKeys d) :
    StreamlinkPlugins.match_url d url = resolveFirstSpec d url := by
  unfold StreamlinkPlugins.match_url resolveFirstSpec
  rw [find?_iter_matchers]
  cases hf : d.find? (fun e => pluginMatches e.2 url) with
  | none => simp
  | some e0 =>
    have := dictGet?_of_find? d _ e0 hnd hf
    simp [this]

/-! ### The batch loader (`_load_from_path` / `_load_plugin_from_finder`)

`pkgutil.iter_modules([path])` yields one entry per module in the scanned
directory.  Executing a module through `exec_module` (repo code outside the
registry) runs arbitrary plugin code and either returns the module object,
raises `ImportError`, or raises some other exception; the loader's
`try`/`except ImportError` in `_load_plugin_from_finder` only handles the
`ImportError` case.  A raised exception is embedded as `Except.error`. -/

/-- The `__plugin__` attribute found on an executed module: the loader
checks `issubclass(mod.__plugin__, Plugin)` before accepting it. -/
structure PluginCandidate where
  isSubclass : Bool
  plugin : Plugin

/-- Outcome of executing one plugin module. -/
inductive ExecResult where
  | importError
  | raised
  | ok (attr : Option PluginCandidate)

/-- `True` exactly when executing the module raises a non-`ImportError`
exception. -/
def ExecResult.isRaised : ExecResult → Bool
  | .raised => true
  | _ => false

/-- One module of the scanned plugin directory: its name and what
executing it produces. -/
structure ModuleEntry where
  name : String
  exec : ExecResult

/-- Log records emitted by the loader. -/
inductive LogEvent where
  | loadFailed (name : String)
  | overridden (name : String)
deriving DecidableEq

/-- `True` exactly when the module contributes a plugin: it executes
without raising and exposes a `__plugin__` attribute that is a `Plugin`
subclass. -/
def yieldsPlugin (m : ModuleEntry) : Bool :=
  match m.exec with
  | .ok (some c) => c.isSubclass
  | _ => false

namespace StreamlinkPlugins

/-- `StreamlinkPlugins._load_plugin_from_finder`: `ImportError` is caught,
logged (`log.exception`) and turned into `None`; any other exception
propagates; a module without a `__plugin__` attribute, or whose attribute
is not a `Plugin` subclass, yields `None` with no log record. -/
def load_plugin_from_finder (m : ModuleEntry) : Except Unit (List LogEvent × Option Plugin) :=
  match m.exec with
  | .raised => .error ()
  | .importError => .ok ([.loadFailed m.name], none)
  | .ok none => .ok ([], none)
  | .ok (some c) => if c.isSubclass then .ok ([], some c.plugin) else .ok ([], none)

/-- The module loop of `StreamlinkPlugins._load_from_path`, carrying the
`plugins`, `tDash`, `tHls`, `tHttp` dictionaries and the emitted logs. -/
def load_from_path_go (mods : List ModuleEntry) (plugins tDash tHls tHttp : Dict)
    (logs : List LogEvent) : Except Unit (Dict × Dict × Dict × Dict × List LogEvent) :=
  match mods with
  | [] => .ok (plugins, tDash, tHls, tHttp, logs)
  | m :: rest =>
    match load_plugin_from_finder m with
    | .error e => .error e
    | .ok (lg, none) => load_from_path_go rest plugins tDash tHls tHttp (logs ++ lg)
    | .ok (lg, some plugin) =>
      if m.name == "dash" then
        load_from_path_go rest plugins (dictInsert tDash m.name plugin) tHls tHttp (logs ++ lg)
      else if m.name == "hls" then
        load_from_path_go rest plugins tDash (dictInsert tHls m.name plugin) tHttp (logs ++ lg)
      else if m.name == "http" then
        load_from_path_go rest plugins tDash tHls (dictInsert tHttp m.name plugin) (logs ++ lg)
      else
        load_from_path_go rest (dictInsert plugins m.name plugin) tDash tHls tHttp
          (logs ++ lg ++ (if dictHasKey plugins m.name then [.overridden m.name] else []))

/-- `StreamlinkPlugins._load_from_path`: run the module loop with empty
dictionaries, then merge `tHls`, `tDash`, `tHttp` (each only when truthy)
into `plugins` in that order, so the result is ordered
`[plugins..., hls, dash, http]`. -/
def load_from_path (mods : List ModuleEntry) : Except Unit (List LogEvent × Dict) :=
  match load_from_path_go mods [] [] [] [] [] with
  | .error e => .error e
  | .ok (plugins, tDash, tHls, tHttp, logs) =>
    let p1 := if tHls.isEmpty then plugins else dictUpdate plugins tHls
    let p2 := if tDash.isEmpty then p1 else dictUpdate p1 tDash
    let p3 := if tHttp.isEmpty then p2 else dictUpdate p2 tHttp
    .ok (logs, p3)

/-- `StreamlinkPlugins.load_path`: merge the loaded batch into the session
registry with `self.update(plugins)` and return `bool(plugins)`. -/
def load_path (reg : Dict) (mods : List ModuleEntry) : Except Unit (Dict × Bool) :=
  match load_from_path mods with
  | .error e => .error e
  | .ok (_, plugins) => .ok (dictUpdate reg plugins, !plugins.isEmpty)

end StreamlinkPlugins

/-- The three reserved generic fallback plugin names. -/
def reservedNames : List String := ["dash", "hls", "http"]

/-! ### Dictionary lemmas -/

theorem dictInsert_ne_nil (d : Dict) (k : String) (v : Plugin) :
    dictInsert d k v ≠ [] := by
  unfold dictInsert
  split
  · cases d with
    | nil => simp [dictHasKey] at *
    | cons a rest => simp
  · simp

theorem mem_dictInsert {d : Dict} {k : String} {v : Plugin} {e : String × Plugin}
    (h : e ∈ dictInsert d k v) : e = (k, v) ∨ (e ∈ d ∧ e.1 ≠ k) := by
  unfold dictInsert at h
  by_cases hk : dictHasKey d k
  · rw [if_pos hk] at h
    obtain ⟨a, ha, hae⟩ := List.mem_map.mp h
    by_cases hak : a.1 == k
    · left
      rw [if_pos hak] at hae
      exact hae.symm
    · right
      rw [if_neg hak] at hae
      subst hae
      exact ⟨ha, by simpa using hak⟩
  · rw [if_neg hk] at h
    rcases List.mem_append.mp h with hd | hs
    · right
      refine ⟨hd, ?_⟩
      intro heq
      apply hk
      unfold dictHasKey
      exact List.any_eq_true.mpr ⟨e, hd, by simpa using heq⟩
    · left
      simpa using hs

theorem keys_dictInsert_of_hasKey {d : Dict} {k : String} (v : Plugin)
    (h : dictHasKey d k) :
    (dictInsert d k v).map Prod.fst = d.map Prod.fst := by
  unfold dictInsert
  rw [if_pos h, List.map_map]
  apply List.map_congr_left
  intro a _
  by_cases hak : a.1 == k
  · have hk' : a.1 = k := by simpa using hak
    simp [Function.comp, if_pos hak, hk']
  · simp only [Function.comp, if_neg hak]

theorem keys_dictInsert_of_not_hasKey {d : Dict} {k : String} (v : Plugin)
    (h : ¬ dictHasKey d k) :
    (dictInsert d k v).map Prod.fst = d.map Prod.fst ++ [k] := by
  unfold dictInsert
  rw [if_neg h, List.map_append]
  rfl

theorem not_hasKey_iff {d : Dict} {k : String} :
    ¬ dictHasKey d k = true ↔ ∀ e ∈ d, e.1 ≠ k := by
  unfold dictHasKey
  constructor
  · intro h e he heq
    exact h (List.any_eq_true.mpr ⟨e, he, by simpa using heq⟩)
  · intro h hcon
    obtain ⟨e, he, hek⟩ := List.any_eq_true.mp hcon
    exact h e he (by simpa using hek)

theorem nodupKeys_dictInsert {d : Dict} (k : String) (v : Plugin)
    (h : nodupKeys d) : nodupKeys (dictInsert d k v) := by
  by_cases hk : dictHasKey d k
  · unfold nodupKeys
    rw [keys_dictInsert_of_hasKey v hk]
    exact h
  · unfold nodupKeys
    rw [keys_dictInsert_of_not_hasKey v hk]
    have hnotin : k ∉ d.map Prod.fst := by
      intro hmem
      obtain ⟨e, he, hek⟩ := List.mem_map.mp hmem
      exact (not_hasKey_iff.mp hk) e he hek
    rw [List.nodup_append]
    refine ⟨h, List.nodup_singleton k, ?_⟩
    intro a ha hmem
    have ha' : a = k := by simpa using hmem
    subst ha'
    exact hnotin ha

theorem keyPred_dictInsert {d : Dict} {k : String} {v : Plugin} {P : String → Prop}
    (hd : ∀ e ∈ d, P e.1) (hk : P k) :
    ∀ e ∈ dictInsert d k v, P e.1 := by
  intro e he
  rcases mem_dictInsert he with rfl | ⟨hmem, _⟩
  · exact hk
  · exact hd e hmem

theorem mem_dictUpdate {d o : Dict} {e : String × Plugin}
    (h : e ∈ dictUpdate d o) : e ∈ d ∨ e ∈ o := by
  induction o generalizing d with
  | nil => exact Or.inl h
  | cons x rest ih =>
    have h' : e ∈ dictUpdate (dictInsert d x.1 x.2) rest := h
    rcases ih h' with hin | hin
    · rcases mem_dictInsert hin with rfl | ⟨hmem, _⟩
      · exact Or.inr (List.mem_cons_self _ _)
      · exact Or.inl hmem
    · exact Or.inr (List.mem_cons_of_mem _ hin)

theorem dictUpdate_ne_nil {d o : Dict} (h : d ≠ [] ∨ o ≠ []) :
    dictUpdate d o ≠ [] := by
  induction o generalizing d with
  | nil => simpa [dictUpdate] using h.resolve_right (by simp)
  | cons x rest ih =>
    have : dictUpdate d (x :: rest) = dictUpdate (dictInsert d x.1 x.2) rest := rfl
    rw [this]
    exact ih (Or.inl (dictInsert_ne_nil d x.1 x.2))

/-- Updating with a dict whose keys are all fresh appends it. -/
theorem dictUpdate_disjoint_eq_append {d o : Dict}
    (h : ∀ e ∈ o, ¬ dictHasKey d e.1 = true) (hno : nodupKeys o) :
    dictUpdate d o = d ++ o := by
  induction o generalizing d with
  | nil => simp [dictUpdate]
  | cons x rest ih =>
    have hx : ¬ dictHasKey d x.1 = true := h x (List.mem_cons_self _ _)
    have hstep : dictUpdate d (x :: rest) = dictUpdate (d ++ [x]) rest := by
      show dictUpdate (dictInsert d x.1 x.2) rest = _
      rw [dictInsert, if_neg hx]
    obtain ⟨hxfresh, hno'⟩ := nodupKeys_cons hno
    rw [hstep, ih ?_ hno', List.append_assoc]
    · rfl
    · intro e he
      have h1 : ¬ dictHasKey d e.1 = true := h e (List.mem_cons_of_mem _ he)
      intro hcon
      unfold dictHasKey at hcon
      obtain ⟨a, ha, hak⟩ := List.any_eq_true.mp hcon
      rcases List.mem_append.mp ha with had | hax
      · exact h1 (List.any_eq_true.mpr ⟨a, had, hak⟩)
      · have hax' : a = x := by simpa using hax
        subst hax'
        have hk2 : a.1 = e.1 := by simpa using hak
        exact hxfresh e he hk2.symm

/-- Appending key-disjoint dicts with unique keys keeps keys unique. -/
theorem nodupKeys_append {d o : Dict} (hd : nodupKeys d) (ho : nodupKeys o)
    (hdisj : ∀ e ∈ o, ¬ dictHasKey d e.1 = true) :
    nodupKeys (d ++ o) := by
  unfold nodupKeys
  rw [List.map_append, List.nodup_append]
  refine ⟨hd, ho, ?_⟩
  intro k hk1 hk2
  obtain ⟨e, he, hek⟩ := List.mem_map.mp hk2
  obtain ⟨a, ha, hak⟩ := List.mem_map.mp hk1
  exact hdisj e he (List.any_eq_true.mpr ⟨a, ha, by simp [hak, hek]⟩)

/-! ### Structure of a loaded batch -/

/-- Invariant of the four accumulators of the loader loop: `plugins` only
holds non-reserved names, the three side tables only hold their own
reserved name, and every accumulator has unique keys. -/
def LoaderInv (plugins tDash tHls tHttp : Dict) : Prop :=
  (∀ e ∈ plugins, e.1 ∉ reservedNames) ∧ nodupKeys plugins
  ∧ (∀ e ∈ tDash, e.1 = "dash") ∧ nodupKeys tDash
  ∧ (∀ e ∈ tHls, e.1 = "hls") ∧ nodupKeys tHls
  ∧ (∀ e ∈ tHttp, e.1 = "http") ∧ nodupKeys tHttp

theorem load_from_path_go_inv :
    ∀ (mods : List ModuleEntry) (plugins tDash tHls tHttp : Dict) (logs : List LogEvent)
      (plugins' tDash' tHls' tHttp' : Dict) (logs' : List LogEvent),
      StreamlinkPlugins.load_from_path_go mods plugins tDash tHls tHttp logs
        = .ok (plugins', tDash', tHls', tHttp', logs') →
      LoaderInv plugins tDash tHls tHttp →
      LoaderInv plugins' tDash' tHls' tHttp' := by
  intro mods
  induction mods with
  | nil =>
    intro plugins tDash tHls tHttp logs plugins' tDash' tHls' tHttp' logs' hok hinv
    simp only [StreamlinkPlugins.load_from_path_go] at hok
    obtain ⟨h1, h2, h3, h4, h5⟩ :
        plugins = plugins' ∧ tDash = tDash' ∧ tHls = tHls' ∧ tHttp = tHttp' ∧ logs = logs' := by
      simpa using hok
    exact h1 ▸ h2 ▸ h3 ▸ h4 ▸ hinv
  | cons m rest ih =>
    intro plugins tDash tHls tHttp logs plugins' tDash' tHls' tHttp' logs' hok hinv
    obtain ⟨hp, hpn, hd, hdn, hh, hhn, ht, htn⟩ := hinv
    cases hex : m.exec with
    | raised =>
      simp [StreamlinkPlugins.load_from_path_go,
        StreamlinkPlugins.load_plugin_from_finder, hex] at hok
    | importError =>
      simp only [StreamlinkPlugins.load_from_path_go,
        StreamlinkPlugins.load_plugin_from_finder, hex] at hok
      exact ih _ _ _ _ _ _ _ _ _ _ hok ⟨hp, hpn, hd, hdn, hh, hhn, ht, htn⟩
    | ok attr =>
      cases attr with
      | none =>
        simp only [StreamlinkPlugins.load_from_path_go,
          StreamlinkPlugins.load_plugin_from_finder, hex] at hok
        exact ih _ _ _ _ _ _ _ _ _ _ hok ⟨hp, hpn, hd, hdn, hh, hhn, ht, htn⟩
      | some c =>
        by_cases hsub : c.isSubclass
        · by_cases hdash : m.name == "dash"
          · simp only [StreamlinkPlugins.load_from_path_go,
              StreamlinkPlugins.load_plugin_from_finder, hex, hsub, hdash,
              if_true, if_pos] at hok
            have hnm : m.name = "dash" := by simpa using hdash
            have hd' : ∀ e ∈ dictInsert tDash m.name c.plugin, e.1 = "dash" := by
              intro e he
              rcases mem_dictInsert he with rfl | ⟨hmem, _⟩
              · exact hnm
              · exact hd e hmem
            exact ih _ _ _ _ _ _ _ _ _ _ hok
              ⟨hp, hpn, hd', nodupKeys_dictInsert _ _ hdn, hh, hhn, ht, htn⟩
          · by_cases hhls : m.name == "hls"
            · simp only [StreamlinkPlugins.load_from_path_go,
                StreamlinkPlugins.load_plugin_from_finder, hex, hsub, hdash, hhls,
                if_true, if_false, if_pos, if_neg] at hok
              have hnm : m.name = "hls" := by simpa using hhls
              have hh' : ∀ e ∈ dictInsert tHls m.name c.plugin, e.1 = "hls" := by
                intro e he
                rcases mem_dictInsert he with rfl | ⟨hmem, _⟩
                · exact hnm
                · exact hh e hmem
              exact ih _ _ _ _ _ _ _ _ _ _ hok
                ⟨hp, hpn, hd, hdn, hh', nodupKeys_dictInsert _ _ hhn, ht, htn⟩
            · by_cases hhttp : m.name == "http"
              · simp only [StreamlinkPlugins.load_from_path_go,
                  StreamlinkPlugins.load_plugin_from_finder, hex, hsub, hdash, hhls, hhttp,
                  if_true, if_false, if_pos, if_neg] at hok
                have hnm : m.name = "http" := by simpa using hhttp
                have ht' : ∀ e ∈ dictInsert tHttp m.name c.plugin, e.1 = "http" := by
                  intro e he
                  rcases mem_dictInsert he with rfl | ⟨hmem, _⟩
                  · exact hnm
                  · exact ht e hmem
                exact ih _ _ _ _ _ _ _ _ _ _ hok
                  ⟨hp, hpn, hd, hdn, hh, hhn, ht', nodupKeys_dictInsert _ _ htn⟩
              · simp only [StreamlinkPlugins.load_from_path_go,
                  StreamlinkPlugins.load_plugin_from_finder, hex, hsub, hdash, hhls, hhttp,
                  if_true, if_false, if_pos, if_neg] at hok
                have hnm : m.name ∉ reservedNames := by
                  simp only [reservedNames, List.mem_cons, List.mem_singleton]
                  push_neg
                  exact ⟨by simpa using hdash, by simpa using hhls,
                    by simpa using hhttp⟩
                have hp' : ∀ e ∈ dictInsert plugins m.name c.plugin, e.1 ∉ reservedNames := by
                  intro e he
                  rcases mem_dictInsert he with rfl | ⟨hmem, _⟩
                  · exact hnm
                  · exact hp e hmem
                exact ih _ _ _ _ _ _ _ _ _ _ hok
                  ⟨hp', nodupKeys_dictInsert _ _ hpn, hd, hdn, hh, hhn, ht, htn⟩
        · simp only [StreamlinkPlugins.load_from_path_go,
            StreamlinkPlugins.load_plugin_from_finder, hex, hsub, if_neg,
            Bool.false_eq_true, if_false] at hok
          exact ih _ _ _ _ _ _ _ _ _ _ hok ⟨hp, hpn, hd, hdn, hh, hhn, ht, htn⟩

/-- When the loader loop (started on empty accumulators) completes, the
merge phase of `load_from_path` appends the side tables behind the
specific plugins, in the fixed order `hls`, `dash`, `http`. -/
theorem load_from_path_merge (mods : List ModuleEntry) (p td th tt : Dict)
    (lg : List LogEvent)
    (hgo : StreamlinkPlugins.load_from_path_go mods [] [] [] [] []
      = .ok (p, td, th, tt, lg)) :
    StreamlinkPlugins.load_from_path mods = .ok (lg, p ++ th ++ td ++ tt)
    ∧ LoaderInv p td th tt
    ∧ nodupKeys (p ++ th ++ td ++ tt) := by
  have hinv : LoaderInv p td th tt :=
    load_from_path_go_inv mods [] [] [] [] [] p td th tt lg hgo
      ⟨by simp, by simp [nodupKeys], by simp, by simp [nodupKeys],
        by simp, by simp [nodupKeys], by simp, by simp [nodupKeys]⟩
  obtain ⟨hp, hpn, hd, hdn, hh, hhn, ht, htn⟩ := hinv
  have hreserved : ∀ s : String, s = "hls" ∨ s = "dash" ∨ s = "http" → s ∈ reservedNames := by
    intro s hs
    rcases hs with rfl | rfl | rfl <;> simp [reservedNames]
  -- merging a reserved-keys side table into a dict free of that key appends it
  have hmerge1 : (if th.isEmpty then p else dictUpdate p th) = p ++ th := by
    by_cases hemp : th.isEmpty
    · have : th = [] := by simpa using hemp
      simp [hemp, this]
    · rw [if_neg hemp]
      refine dictUpdate_disjoint_eq_append ?_ hhn
      intro e he
      refine not_hasKey_iff.mpr ?_
      intro a ha heq
      exact hp a ha (heq ▸ hreserved _ (Or.inl (hh e he)))
  have hdisj2 : ∀ e ∈ td, ¬ dictHasKey (p ++ th) e.1 = true := by
    intro e he
    refine not_hasKey_iff.mpr ?_
    intro a ha heq
    rcases List.mem_append.mp ha with hap | hat
    · exact hp a hap (heq ▸ hreserved _ (Or.inr (Or.inl (hd e he))))
    · have : a.1 = "hls" := hh a hat
      rw [this, hd e he] at heq
      simp at heq
  have hmerge2 : (if td.isEmpty then p ++ th else dictUpdate (p ++ th) td) = p ++ th ++ td := by
    by_cases hemp : td.isEmpty
    · have : td = [] := by simpa using hemp
      simp [hemp, this]
    · rw [if_neg hemp]
      exact dictUpdate_disjoint_eq_append hdisj2 hdn
  have hdisj3 : ∀ e ∈ tt, ¬ dictHasKey (p ++ th ++ td) e.1 = true := by
    intro e he
    refine not_hasKey_iff.mpr ?_
    intro a ha heq
    rcases List.mem_append.mp ha with hap | hat
    · rcases List.mem_append.mp hap with hap' | hat'
      · exact hp a hap' (heq ▸ hreserved _ (Or.inr (Or.inr (ht e he))))
      · have : a.1 = "hls" := hh a hat'
        rw [this, ht e he] at heq
        simp at heq
    · have : a.1 = "dash" := hd a hat
      rw [this, ht e he] at heq
      simp at heq
  have hmerge3 : (if tt.isEmpty then p ++ th ++ td else dictUpdate (p ++ th ++ td) tt)
      = p ++ th ++ td ++ tt := by
    by_cases hemp : tt.isEmpty
    · have : tt = [] := by simpa using hemp
      simp [hemp, this]
    · rw [if_neg hemp]
      exact dictUpdate_disjoint_eq_append hdisj3 htn
  have hload : StreamlinkPlugins.load_from_path mods = .ok (lg, p ++ th ++ td ++ tt) := by
    unfold StreamlinkPlugins.load_from_path
    rw [hgo]
    simp only [hmerge1, hmerge2, hmerge3]
  have hnd1 : nodupKeys (p ++ th) := nodupKeys_append hpn hhn (by
    intro e he
    refine not_hasKey_iff.mpr ?_
    intro a ha heq
    exact hp a ha (heq ▸ hreserved _ (Or.inl (hh e he))))
  have hnd2 : nodupKeys (p ++ th ++ td) := nodupKeys_append hnd1 hdn hdisj2
  have hnd3 : nodupKeys (p ++ th ++ td ++ tt) := nodupKeys_append hnd2 htn hdisj3
  exact ⟨hload, ⟨hp, hpn, hd, hdn, hh, hhn, ht, htn⟩, hnd3⟩

/-- Every successfully loaded batch splits as
`[specific plugins..., hls-entry, dash-entry, http-entry]` with unique
keys: the loader inserts all non-reserved plugins first and the reserved
fallback names last, in the fixed order `hls`, `dash`, `http`. -/
theorem load_from_path_shape (mods : List ModuleEntry) (logs : List LogEvent) (reg : Dict)
    (h : StreamlinkPlugins.load_from_path mods = .ok (logs, reg)) :
    ∃ sp hl da ht, reg = sp ++ hl ++ da ++ ht
      ∧ (∀ e ∈ sp, e.1 ∉ reservedNames)
      ∧ (∀ e ∈ hl, e.1 = "hls") ∧ (∀ e ∈ da, e.1 = "dash") ∧ (∀ e ∈ ht, e.1 = "http")
      ∧ nodupKeys reg := by
  cases hgo : StreamlinkPlugins.load_from_path_go mods [] [] [] [] [] with
  | error e =>
    unfold StreamlinkPlugins.load_from_path at h
    rw [hgo] at h
    simp at h
  | ok r =>
    obtain ⟨p, td, th, tt, lg⟩ := r
    obtain ⟨hload, hinv, hnd⟩ := load_from_path_merge mods p td th tt lg hgo
    obtain ⟨hp, hpn, hd, hdn, hh, hhn, ht, htn⟩ := hinv
    rw [hload] at h
    obtain ⟨hlg, hreg⟩ : lg = logs ∧ p ++ th ++ td ++ tt = reg := by simpa using h
    exact ⟨p, th, td, tt, hreg.symm, hp, hh, hd, ht, hreg ▸ hnd⟩

theorem mem_mergeStep {X t : Dict} {e : String × Plugin}
    (h : e ∈ (if t.isEmpty then X else dictUpdate X t)) : e ∈ X ∨ e ∈ t := by
  by_cases hemp : t.isEmpty
  · rw [if_pos hemp] at h
    exact Or.inl h
  · rw [if_neg hemp] at h
    exact mem_dictUpdate h

theorem mergeStep_ne_nil {X t : Dict} (h : X ≠ [] ∨ t ≠ []) :
    (if t.isEmpty then X else dictUpdate X t) ≠ [] := by
  by_cases hemp : t.isEmpty
  · rw [if_pos hemp]
    have ht : t = [] := by simpa using hemp
    exact h.resolve_right (by simp [ht])
  · rw [if_neg hemp]
    exact dictUpdate_ne_nil (Or.inr (by simpa using hemp))

/-- If no module of the batch raises a non-`ImportError` exception, the
loader loop completes. -/
theorem load_from_path_go_ok :
    ∀ (mods : List ModuleEntry) (plugins tDash tHls tHttp : Dict) (logs : List LogEvent),
      (∀ m ∈ mods, m.exec.isRaised = false) →
      ∃ plugins' tDash' tHls' tHttp' logs',
        StreamlinkPlugins.load_from_path_go mods plugins tDash tHls tHttp logs
          = .ok (plugins', tDash', tHls', tHttp', logs') := by
  intro mods
  induction mods with
  | nil =>
    intro plugins tDash tHls tHttp logs _
    exact ⟨plugins, tDash, tHls, tHttp, logs, rfl⟩
  | cons m rest ih =>
    intro plugins tDash tHls tHttp logs h
    have hm : m.exec.isRaised = false := h m (List.mem_cons_self _ _)
    have hrest : ∀ m' ∈ rest, m'.exec.isRaised = false :=
      fun m' hm' => h m' (List.mem_cons_of_mem _ hm')
    cases hex : m.exec with
    | raised => rw [hex] at hm; simp [ExecResult.isRaised] at hm
    | importError =>
      simp only [StreamlinkPlugins.load_from_path_go,
        StreamlinkPlugins.load_plugin_from_finder, hex]
      exact ih _ _ _ _ _ hrest
    | ok attr =>
      cases attr with
      | none =>
        simp only [StreamlinkPlugins.load_from_path_go,
          StreamlinkPlugins.load_plugin_from_finder, hex]
        exact ih _ _ _ _ _ hrest
      | some c =>
        by_cases hsub : c.isSubclass
        · simp only [StreamlinkPlugins.load_from_path_go,
            StreamlinkPlugins.load_plugin_from_finder, hex, hsub, if_true]
          by_cases hdash : m.name == "dash"
          · simp only [hdash, if_true]
            exact ih _ _ _ _ _ hrest
          · by_cases hhls : m.name == "hls"
            · simp only [hdash, hhls, if_true, if_false, Bool.false_eq_true]
              exact ih _ _ _ _ _ hrest
            · by_cases hhttp : m.name == "http"
              · simp only [hdash, hhls, hhttp, if_true, if_false, Bool.false_eq_true]
                exact ih _ _ _ _ _ hrest
              · simp only [hdash, hhls, hhttp, if_false, Bool.false_eq_true]
                exact ih _ _ _ _ _ hrest
        · simp only [StreamlinkPlugins.load_from_path_go,
            StreamlinkPlugins.load_plugin_from_finder, hex, hsub, Bool.false_eq_true,
            if_false]
          exact ih _ _ _ _ _ hrest

/-- Log bookkeeping of the loader loop: earlier logs are kept, every
`ImportError` module is logged as failed, and every failure record stems
from an `ImportError` module (other skipped modules are silent). -/
theorem load_from_path_go_logs :
    ∀ (mods : List ModuleEntry) (plugins tDash tHls tHttp : Dict) (logs : List LogEvent)
      (plugins' tDash' tHls' tHttp' : Dict) (logs' : List LogEvent),
      StreamlinkPlugins.load_from_path_go mods plugins tDash tHls tHttp logs
        = .ok (plugins', tDash', tHls', tHttp', logs') →
      (∀ x ∈ logs, x ∈ logs')
      ∧ (∀ m ∈ mods, m.exec = .importError → LogEvent.loadFailed m.name ∈ logs')
      ∧ (∀ n, LogEvent.loadFailed n ∈ logs' → LogEvent.loadFailed n ∈ logs
          ∨ ∃ m ∈ mods, m.name = n ∧ m.exec = .importError) := by
  intro mods
  induction mods with
  | nil =>
    intro plugins tDash tHls tHttp logs plugins' tDash' tHls' tHttp' logs' hok
    obtain ⟨-, -, -, -, h5⟩ :
        plugins = plugins' ∧ tDash = tDash' ∧ tHls = tHls' ∧ tHttp = tHttp' ∧ logs = logs' := by
      simp only [StreamlinkPlugins.load_from_path_go] at hok
      simpa using hok
    subst h5
    exact ⟨fun x hx => hx, by simp, fun n hn => Or.inl hn⟩
  | cons m rest ih =>
    intro plugins tDash tHls tHttp logs plugins' tDash' tHls' tHttp' logs' hok
    cases hex : m.exec with
    | raised =>
      simp [StreamlinkPlugins.load_from_path_go,
        StreamlinkPlugins.load_plugin_from_finder, hex] at hok
    | importError =>
      simp only [StreamlinkPlugins.load_from_path_go,
        StreamlinkPlugins.load_plugin_from_finder, hex] at hok
      obtain ⟨hmono, hlog, horig⟩ := ih _ _ _ _ _ _ _ _ _ _ hok
      refine ⟨?_, ?_, ?_⟩
      · intro x hx
        exact hmono x (List.mem_append.mpr (Or.inl hx))
      · intro m' hm' hie
        rcases List.mem_cons.mp hm' with rfl | hm'r
        · exact hmono _ (List.mem_append.mpr (Or.inr (by simp)))
        · exact hlog m' hm'r hie
      · intro n hn
        rcases horig n hn with hin | ⟨m', hm', hnm, hie⟩
        · rcases List.mem_append.mp hin with h1 | h2
          · exact Or.inl h1
          · have h3 : n = m.name := by simpa using h2
            exact Or.inr ⟨m, List.mem_cons_self _ _, h3.symm, hex⟩
        · exact Or.inr ⟨m', List.mem_cons_of_mem _ hm', hnm, hie⟩
    | ok attr =>
      have hnolog : ∀ (acc : List LogEvent), acc = logs ++ [] → ∀ x, x ∈ logs → x ∈ acc := by
        intro acc hacc x hx
        rw [hacc]
        exact List.mem_append.mpr (Or.inl hx)
      cases attr with
      | none =>
        simp only [StreamlinkPlugins.load_from_path_go,
          StreamlinkPlugins.load_plugin_from_finder, hex] at hok
        obtain ⟨hmono, hlog, horig⟩ := ih _ _ _ _ _ _ _ _ _ _ hok
        refine ⟨?_, ?_, ?_⟩
        · intro x hx
          exact hmono x (List.mem_append.mpr (Or.inl hx))
        · intro m' hm' hie
          rcases List.mem_cons.mp hm' with rfl | hm'r
          · rw [hex] at hie
            cases hie
          · exact hlog m' hm'r hie
        · intro n hn
          rcases horig n hn with hin | ⟨m', hm', hnm, hie⟩
          · rcases List.mem_append.mp hin with h1 | h2
            · exact Or.inl h1
            · simp at h2
          · exact Or.inr ⟨m', List.mem_cons_of_mem _ hm', hnm, hie⟩
      | some c =>
        by_cases hsub : c.isSubclass
        · have hfin : StreamlinkPlugins.load_plugin_from_finder m
              = .ok ([], some c.plugin) := by
            simp [StreamlinkPlugins.load_plugin_from_finder, hex, hsub]
          by_cases hdash : m.name == "dash"
          · simp only [StreamlinkPlugins.load_from_path_go, hfin, hdash, if_true] at hok
            obtain ⟨hmono, hlog, horig⟩ := ih _ _ _ _ _ _ _ _ _ _ hok
            refine ⟨?_, ?_, ?_⟩
            · intro x hx
              exact hmono x (List.mem_append.mpr (Or.inl hx))
            · intro m' hm' hie
              rcases List.mem_cons.mp hm' with rfl | hm'r
              · rw [hex] at hie
                cases hie
              · exact hlog m' hm'r hie
            · intro n hn
              rcases horig n hn with hin | ⟨m', hm', hnm, hie⟩
              · rcases List.mem_append.mp hin with h1 | h2
                · exact Or.inl h1
                · simp at h2
              · exact Or.inr ⟨m', List.mem_cons_of_mem _ hm', hnm, hie⟩
          · by_cases hhls : m.name == "hls"
            · simp only [StreamlinkPlugins.load_from_path_go, hfin, hdash, hhls,
                if_true, if_false, Bool.false_eq_true] at hok
              obtain ⟨hmono, hlog, horig⟩ := ih _ _ _ _ _ _ _ _ _ _ hok
              refine ⟨?_, ?_, ?_⟩
              · intro x hx
                exact hmono x (List.mem_append.mpr (Or.inl hx))
              · intro m' hm' hie
                rcases List.mem_cons.mp hm' with rfl | hm'r
                · rw [hex] at hie
                  cases hie
                · exact hlog m' hm'r hie
              · intro n hn
                rcases horig n hn with hin | ⟨m', hm', hnm, hie⟩
                · rcases List.mem_append.mp hin with h1 | h2
                  · exact Or.inl h1
                  · simp at h2
                · exact Or.inr ⟨m', List.mem_cons_of_mem _ hm', hnm, hie⟩
            · by_cases hhttp : m.name == "http"
              · simp only [StreamlinkPlugins.load_from_path_go, hfin, hdash, hhls, hhttp,
                  if_true, if_false, Bool.false_eq_true] at hok
                obtain ⟨hmono, hlog, horig⟩ := ih _ _ _ _ _ _ _ _ _ _ hok
                refine ⟨?_, ?_, ?_⟩
                · intro x hx
                  exact hmono x (List.mem_append.mpr (Or.inl hx))
                · intro m' hm' hie
                  rcases List.mem_cons.mp hm' with rfl | hm'r
                  · rw [hex] at hie
                    cases hie
                  · exact hlog m' hm'r hie
                · intro n hn
                  rcases horig n hn with hin | ⟨m', hm', hnm, hie⟩
                  · rcases List.mem_append.mp hin with h1 | h2
                    · exact Or.inl h1
                    · simp at h2
                  · exact Or.inr ⟨m', List.mem_cons_of_mem _ hm', hnm, hie⟩
              · simp only [StreamlinkPlugins.load_from_path_go, hfin, hdash, hhls, hhttp,
                  if_false, Bool.false_eq_true] at hok
                obtain ⟨hmono, hlog, horig⟩ := ih _ _ _ _ _ _ _ _ _ _ hok
                refine ⟨?_, ?_, ?_⟩
                · intro x hx
                  refine hmono x ?_
                  rw [List.append_assoc]
                  exact List.mem_append.mpr (Or.inl hx)
                · intro m' hm' hie
                  rcases List.mem_cons.mp hm' with rfl | hm'r
                  · rw [hex] at hie
                    cases hie
                  · exact hlog m' hm'r hie
                · intro n hn
                  rcases horig n hn with hin | ⟨m', hm', hnm, hie⟩
                  · rw [List.append_assoc] at hin
                    rcases List.mem_append.mp hin with h1 | h2
                    · exact Or.inl h1
                    · rcases List.mem_append.mp h2 with h3 | h4
                      · simp at h3
                      · by_cases hov : dictHasKey plugins m.name
                        · rw [if_pos hov] at h4
                          simp at h4
                        · rw [if_neg hov] at h4
                          simp at h4
                  · exact Or.inr ⟨m', List.mem_cons_of_mem _ hm', hnm, hie⟩
        · simp only [StreamlinkPlugins.load_from_path_go,
            StreamlinkPlugins.load_plugin_from_finder, hex, hsub, Bool.false_eq_true,
            if_false] at hok
          obtain ⟨hmono, hlog, horig⟩ := ih _ _ _ _ _ _ _ _ _ _ hok
          refine ⟨?_, ?_, ?_⟩
          · intro x hx
            exact hmono x (List.mem_append.mpr (Or.inl hx))
          · intro m' hm' hie
            rcases List.mem_cons.mp hm' with rfl | hm'r
            · rw [hex] at hie
              cases hie
            · exact hlog m' hm'r hie
          · intro n hn
            rcases horig n hn with hin | ⟨m', hm', hnm, hie⟩
            · rcases List.mem_append.mp hin with h1 | h2
              · exact Or.inl h1
              · simp at h2
            · exact Or.inr ⟨m', List.mem_cons_of_mem _ hm', hnm, hie⟩

/-- Every entry of the loader loop's accumulators either was already there
or stems from a batch module that yields a plugin under that name. -/
theorem load_from_path_go_sources :
    ∀ (mods : List ModuleEntry) (plugins tDash tHls tHttp : Dict) (logs : List LogEvent)
      (plugins' tDash' tHls' tHttp' : Dict) (logs' : List LogEvent),
      StreamlinkPlugins.load_from_path_go mods plugins tDash tHls tHttp logs
        = .ok (plugins', tDash', tHls', tHttp', logs') →
      (∀ e ∈ plugins', e ∈ plugins ∨ ∃ m ∈ mods, m.name = e.1 ∧ yieldsPlugin m = true)
      ∧ (∀ e ∈ tDash', e ∈ tDash ∨ ∃ m ∈ mods, m.name = e.1 ∧ yieldsPlugin m = true)
      ∧ (∀ e ∈ tHls', e ∈ tHls ∨ ∃ m ∈ mods, m.name = e.1 ∧ yieldsPlugin m = true)
      ∧ (∀ e ∈ tHttp', e ∈ tHttp ∨ ∃ m ∈ mods, m.name = e.1 ∧ yieldsPlugin m = true) := by
  intro mods
  induction mods with
  | nil =>
    intro plugins tDash tHls tHttp logs plugins' tDash' tHls' tHttp' logs' hok
    obtain ⟨h1, h2, h3, h4, -⟩ :
        plugins = plugins' ∧ tDash = tDash' ∧ tHls = tHls' ∧ tHttp = tHttp' ∧ logs = logs' := by
      simp only [StreamlinkPlugins.load_from_path_go] at hok
      simpa using hok
    subst h1; subst h2; subst h3; subst h4
    exact ⟨fun e he => Or.inl he, fun e he => Or.inl he,
      fun e he => Or.inl he, fun e he => Or.inl he⟩
  | cons m rest ih =>
    intro plugins tDash tHls tHttp logs plugins' tDash' tHls' tHttp' logs' hok
    cases hex : m.exec with
    | raised =>
      simp [StreamlinkPlugins.load_from_path_go,
        StreamlinkPlugins.load_plugin_from_finder, hex] at hok
    | importError =>
      simp only [StreamlinkPlugins.load_from_path_go,
        StreamlinkPlugins.load_plugin_from_finder, hex] at hok
      obtain ⟨hfp, hfd, hfh, hft⟩ := ih _ _ _ _ _ _ _ _ _ _ hok
      refine ⟨?_, ?_, ?_, ?_⟩ <;> intro e he
      · rcases hfp e he with h1 | ⟨m', hm', hnm, hy⟩
        · exact Or.inl h1
        · exact Or.inr ⟨m', List.mem_cons_of_mem _ hm', hnm, hy⟩
      · rcases hfd e he with h1 | ⟨m', hm', hnm, hy⟩
        · exact Or.inl h1
        · exact Or.inr ⟨m', List.mem_cons_of_mem _ hm', hnm, hy⟩
      · rcases hfh e he with h1 | ⟨m', hm', hnm, hy⟩
        · exact Or.inl h1
        · exact Or.inr ⟨m', List.mem_cons_of_mem _ hm', hnm, hy⟩
      · rcases hft e he with h1 | ⟨m', hm', hnm, hy⟩
        · exact Or.inl h1
        · exact Or.inr ⟨m', List.mem_cons_of_mem _ hm', hnm, hy⟩
    | ok attr =>
      cases attr with
      | none =>
        simp only [StreamlinkPlugins.load_from_path_go,
          StreamlinkPlugins.load_plugin_from_finder, hex] at hok
        obtain ⟨hfp, hfd, hfh, hft⟩ := ih _ _ _ _ _ _ _ _ _ _ hok
        refine ⟨?_, ?_, ?_, ?_⟩ <;> intro e he
        · rcases hfp e he with h1 | ⟨m', hm', hnm, hy⟩
          · exact Or.inl h1
          · exact Or.inr ⟨m', List.mem_cons_of_mem _ hm', hnm, hy⟩
        · rcases hfd e he with h1 | ⟨m', hm', hnm, hy⟩
          · exact Or.inl h1
          · exact Or.inr ⟨m', List.mem_cons_of_mem _ hm', hnm, hy⟩
        · rcases hfh e he with h1 | ⟨m', hm', hnm, hy⟩
          · exact Or.inl h1
          · exact Or.inr ⟨m', List.mem_cons_of_mem _ hm', hnm, hy⟩
        · rcases hft e he with h1 | ⟨m', hm', hnm, hy⟩
          · exact Or.inl h1
          · exact Or.inr ⟨m', List.mem_cons_of_mem _ hm', hnm, hy⟩
      | some c =>
        by_cases hsub : c.isSubclass
        · have hfin : StreamlinkPlugins.load_plugin_from_finder m
              = .ok ([], some c.plugin) := by
            simp [StreamlinkPlugins.load_plugin_from_finder, hex, hsub]
          have hyield : yieldsPlugin m = true := by
            simp [yieldsPlugin, hex, hsub]
          by_cases hdash : m.name == "dash"
          · simp only [StreamlinkPlugins.load_from_path_go, hfin, hdash, if_true] at hok
            obtain ⟨hfp, hfd, hfh, hft⟩ := ih _ _ _ _ _ _ _ _ _ _ hok
            refine ⟨?_, ?_, ?_, ?_⟩ <;> intro e he
            · rcases hfp e he with h1 | ⟨m', hm', hnm, hy⟩
              · exact Or.inl h1
              · exact Or.inr ⟨m', List.mem_cons_of_mem _ hm', hnm, hy⟩
            · rcases hfd e he with h1 | ⟨m', hm', hnm, hy⟩
              · rcases mem_dictInsert h1 with rfl | ⟨hmem, -⟩
                · exact Or.inr ⟨m, List.mem_cons_self _ _, rfl, hyield⟩
                · exact Or.inl hmem
              · exact Or.inr ⟨m', List.mem_cons_of_mem _ hm', hnm, hy⟩
            · rcases hfh e he with h1 | ⟨m', hm', hnm, hy⟩
              · exact Or.inl h1
              · exact Or.inr ⟨m', List.mem_cons_of_mem _ hm', hnm, hy⟩
            · rcases hft e he with h1 | ⟨m', hm', hnm, hy⟩
              · exact Or.inl h1
              · exact Or.inr ⟨m', List.mem_cons_of_mem _ hm', hnm, hy⟩
          · by_cases hhls : m.name == "hls"
            · simp only [StreamlinkPlugins.load_from_path_go, hfin, hdash, hhls,
                if_true, if_false, Bool.false_eq_true] at hok
              obtain ⟨hfp, hfd, hfh, hft⟩ := ih _ _ _ _ _ _ _ _ _ _ hok
              refine ⟨?_, ?_, ?_, ?_⟩ <;> intro e he
              · rcases hfp e he with h1 | ⟨m', hm', hnm, hy⟩
                · exact Or.inl h1
                · exact Or.inr ⟨m', List.mem_cons_of_mem _ hm', hnm, hy⟩
              · rcases hfd e he with h1 | ⟨m', hm', hnm, hy⟩
                · exact Or.inl h1
                · exact Or.inr ⟨m', List.mem_cons_of_mem _ hm', hnm, hy⟩
              · rcases hfh e he with h1 | ⟨m', hm', hnm, hy⟩
                · rcases mem_dictInsert h1 with rfl | ⟨hmem, -⟩
                  · exact Or.inr ⟨m, List.mem_cons_self _ _, rfl, hyield⟩
                  · exact Or.inl hmem
                · exact Or.inr ⟨m', List.mem_cons_of_mem _ hm', hnm, hy⟩
              · rcases hft e he with h1 | ⟨m', hm', hnm, hy⟩
                · exact Or.inl h1
                · exact Or.inr ⟨m', List.mem_cons_of_mem _ hm', hnm, hy⟩
            · by_cases hhttp : m.name == "http"
              · simp only [StreamlinkPlugins.load_from_path_go, hfin, hdash, hhls, hhttp,
                  if_true, if_false, Bool.false_eq_true] at hok
                obtain ⟨hfp, hfd, hfh, hft⟩ := ih _ _ _ _ _ _ _ _ _ _ hok
                refine ⟨?_, ?_, ?_, ?_⟩ <;> intro e he
                · rcases hfp e he with h1 | ⟨m', hm', hnm, hy⟩
                  · exact Or.inl h1
                  · exact Or.inr ⟨m', List.mem_cons_of_mem _ hm', hnm, hy⟩
                · rcases hfd e he with h1 | ⟨m', hm', hnm, hy⟩
                  · exact Or.inl h1
                  · exact Or.inr ⟨m', List.mem_cons_of_mem _ hm', hnm, hy⟩
                · rcases hfh e he with h1 | ⟨m', hm', hnm, hy⟩
                  · exact Or.inl h1
                  · exact Or.inr ⟨m', List.mem_cons_of_mem _ hm', hnm, hy⟩
                · rcases hft e he with h1 | ⟨m', hm', hnm, hy⟩
                  · rcases mem_dictInsert h1 with rfl | ⟨hmem, -⟩
                    · exact Or.inr ⟨m, List.mem_cons_self _ _, rfl, hyield⟩
                    · exact Or.inl hmem
                  · exact Or.inr ⟨m', List.mem_cons_of_mem _ hm', hnm, hy⟩
              · simp only [StreamlinkPlugins.load_from_path_go, hfin, hdash, hhls, hhttp,
                  if_false, Bool.false_eq_true] at hok
                obtain ⟨hfp, hfd, hfh, hft⟩ := ih _ _ _ _ _ _ _ _ _ _ hok
                refine ⟨?_, ?_, ?_, ?_⟩ <;> intro e he
                · rcases hfp e he with h1 | ⟨m', hm', hnm, hy⟩
                  · rcases mem_dictInsert h1 with rfl | ⟨hmem, -⟩
                    · exact Or.inr ⟨m, List.mem_cons_self _ _, rfl, hyield⟩
                    · exact Or.inl hmem
                  · exact Or.inr ⟨m', List.mem_cons_of_mem _ hm', hnm, hy⟩
                · rcases hfd e he with h1 | ⟨m', hm', hnm, hy⟩
                  · exact Or.inl h1
                  · exact Or.inr ⟨m', List.mem_cons_of_mem _ hm', hnm, hy⟩
                · rcases hfh e he with h1 | ⟨m', hm', hnm, hy⟩
                  · exact Or.inl h1
                  · exact Or.inr ⟨m', List.mem_cons_of_mem _ hm', hnm, hy⟩
                · rcases hft e he with h1 | ⟨m', hm', hnm, hy⟩
                  · exact Or.inl h1
                  · exact Or.inr ⟨m', List.mem_cons_of_mem _ hm', hnm, hy⟩
        · simp only [StreamlinkPlugins.load_from_path_go,
            StreamlinkPlugins.load_plugin_from_finder, hex, hsub, Bool.false_eq_true,
            if_false] at hok
          obtain ⟨hfp, hfd, hfh, hft⟩ := ih _ _ _ _ _ _ _ _ _ _ hok
          refine ⟨?_, ?_, ?_, ?_⟩ <;> intro e he
          · rcases hfp e he with h1 | ⟨m', hm', hnm, hy⟩
            · exact Or.inl h1
            · exact Or.inr ⟨m', List.mem_cons_of_mem _ hm', hnm, hy⟩
          · rcases hfd e he with h1 | ⟨m', hm', hnm, hy⟩
            · exact Or.inl h1
            · exact Or.inr ⟨m', List.mem_cons_of_mem _ hm', hnm, hy⟩
          · rcases hfh e he with h1 | ⟨m', hm', hnm, hy⟩
            · exact Or.inl h1
            · exact Or.inr ⟨m', List.mem_cons_of_mem _ hm', hnm, hy⟩
          · rcases hft e he with h1 | ⟨m', hm', hnm, hy⟩
            · exact Or.inl h1
            · exact Or.inr ⟨m', List.mem_cons_of_mem _ hm', hnm, hy⟩

/-- If some batch module yields a plugin, the loader loop's accumulators
do not all end up empty. -/
theorem load_from_path_go_nonempty :
    ∀ (mods : List ModuleEntry) (plugins tDash tHls tHttp : Dict) (logs : List LogEvent)
      (plugins' tDash' tHls' tHttp' : Dict) (logs' : List LogEvent),
      StreamlinkPlugins.load_from_path_go mods plugins tDash tHls tHttp logs
        = .ok (plugins', tDash', tHls', tHttp', logs') →
      (plugins ≠ [] ∨ tDash ≠ [] ∨ tHls ≠ [] ∨ tHttp ≠ []
        ∨ ∃ m ∈ mods, yieldsPlugin m = true) →
      (plugins' ≠ [] ∨ tDash' ≠ [] ∨ tHls' ≠ [] ∨ tHttp' ≠ []) := by
  intro mods
  induction mods with
  | nil =>
    intro plugins tDash tHls tHttp logs plugins' tDash' tHls' tHttp' logs' hok hyp
    obtain ⟨h1, h2, h3, h4, -⟩ :
        plugins = plugins' ∧ tDash = tDash' ∧ tHls = tHls' ∧ tHttp = tHttp' ∧ logs = logs' := by
      simp only [StreamlinkPlugins.load_from_path_go] at hok
      simpa using hok
    subst h1; subst h2; subst h3; subst h4
    rcases hyp with h | h | h | h | ⟨m, hm, -⟩
    · exact Or.inl h
    · exact Or.inr (Or.inl h)
    · exact Or.inr (Or.inr (Or.inl h))
    · exact Or.inr (Or.inr (Or.inr h))
    · simp at hm
  | cons m rest ih =>
    intro plugins tDash tHls tHttp logs plugins' tDash' tHls' tHttp' logs' hok hyp
    cases hex : m.exec with
    | raised =>
      simp [StreamlinkPlugins.load_from_path_go,
        StreamlinkPlugins.load_plugin_from_finder, hex] at hok
    | importError =>
      simp only [StreamlinkPlugins.load_from_path_go,
        StreamlinkPlugins.load_plugin_from_finder, hex] at hok
      refine ih _ _ _ _ _ _ _ _ _ _ hok ?_
      rcases hyp with h | h | h | h | ⟨m', hm', hy⟩
      · exact Or.inl h
      · exact Or.inr (Or.inl h)
      · exact Or.inr (Or.inr (Or.inl h))
      · exact Or.inr (Or.inr (Or.inr (Or.inl h)))
      · rcases List.mem_cons.mp hm' with rfl | hm'r
        · simp [yieldsPlugin, hex] at hy
        · exact Or.inr (Or.inr (Or.inr (Or.inr ⟨m', hm'r, hy⟩)))
    | ok attr =>
      cases attr with
      | none =>
        simp only [StreamlinkPlugins.load_from_path_go,
          StreamlinkPlugins.load_plugin_from_finder, hex] at hok
        refine ih _ _ _ _ _ _ _ _ _ _ hok ?_
        rcases hyp with h | h | h | h | ⟨m', hm', hy⟩
        · exact Or.inl h
        · exact Or.inr (Or.inl h)
        · exact Or.inr (Or.inr (Or.inl h))
        · exact Or.inr (Or.inr (Or.inr (Or.inl h)))
        · rcases List.mem_cons.mp hm' with rfl | hm'r
          · simp [yieldsPlugin, hex] at hy
          · exact Or.inr (Or.inr (Or.inr (Or.inr ⟨m', hm'r, hy⟩)))
      | some c =>
        by_cases hsub : c.isSubclass
        · have hfin : StreamlinkPlugins.load_plugin_from_finder m
              = .ok ([], some c.plugin) := by
            simp [StreamlinkPlugins.load_plugin_from_finder, hex, hsub]
          by_cases hdash : m.name == "dash"
          · simp only [StreamlinkPlugins.load_from_path_go, hfin, hdash, if_true] at hok
            exact ih _ _ _ _ _ _ _ _ _ _ hok
              (Or.inr (Or.inl (dictInsert_ne_nil _ _ _)))
          · by_cases hhls : m.name == "hls"
            · simp only [StreamlinkPlugins.load_from_path_go, hfin, hdash, hhls,
                if_true, if_false, Bool.false_eq_true] at hok
              exact ih _ _ _ _ _ _ _ _ _ _ hok
                (Or.inr (Or.inr (Or.inl (dictInsert_ne_nil _ _ _))))
            · by_cases hhttp : m.name == "http"
              · simp only [StreamlinkPlugins.load_from_path_go, hfin, hdash, hhls, hhttp,
                  if_true, if_false, Bool.false_eq_true] at hok
                exact ih _ _ _ _ _ _ _ _ _ _ hok
                  (Or.inr (Or.inr (Or.inr (Or.inl (dictInsert_ne_nil _ _ _)))))
              · simp only [StreamlinkPlugins.load_from_path_go, hfin, hdash, hhls, hhttp,
                  if_false, Bool.false_eq_true] at hok
                exact ih _ _ _ _ _ _ _ _ _ _ hok
                  (Or.inl (dictInsert_ne_nil _ _ _))
        · simp only [StreamlinkPlugins.load_from_path_go,
            StreamlinkPlugins.load_plugin_from_finder, hex, hsub, Bool.false_eq_true,
            if_false] at hok
          refine ih _ _ _ _ _ _ _ _ _ _ hok ?_
          rcases hyp with h | h | h | h | ⟨m', hm', hy⟩
          · exact Or.inl h
          · exact Or.inr (Or.inl h)
          · exact Or.inr (Or.inr (Or.inl h))
          · exact Or.inr (Or.inr (Or.inr (Or.inl h)))
          · rcases List.mem_cons.mp hm' with rfl | hm'r
            · simp [yieldsPlugin, hex, hsub] at hy
            · exact Or.inr (Or.inr (Or.inr (Or.inr ⟨m', hm'r, hy⟩)))

/-! ### Sample plugins used as concrete inputs -/

/-- A matcher for one specific site URL. -/
def mSiteA : Matcher := ⟨fun u => u == "https://sitea.example/video/1"⟩

/-- A site-specific plugin. -/
def pSiteA : Plugin := ⟨[mSiteA]⟩

/-- A broad matcher in the style of the generic fallback plugins: it also
matches the site-specific URL. -/
def mAnyMedia : Matcher := ⟨fun u => u == "https://sitea.example/video/1" || u == "http://media.example/a.mp4"⟩

/-- A generic fallback-style plugin. -/
def pGenericHttp : Plugin := ⟨[mAnyMedia]⟩

/-- A second generic fallback-style plugin. -/
def pGenericHls : Plugin := ⟨[⟨fun u => u == "https://sitea.example/video/1"⟩, mAnyMedia]⟩

/-- A third generic fallback-style plugin. -/
def pGenericDash : Plugin := ⟨[mAnyMedia, mSiteA]⟩

/-- The batch of claim C1: a specific plugin together with the generic
`http` fallback, both matching the same URL. -/
def batchC1 : List ModuleEntry :=
  [⟨"siteA", ExecResult.ok (some ⟨true, pSiteA⟩)⟩,
   ⟨"http", ExecResult.ok (some ⟨true, pGenericHttp⟩)⟩]

/-- The batch of claim C2: only the three generic fallback plugins, in
discovery order `dash`, `hls`, `http`. -/
def batchC2 : List ModuleEntry :=
  [⟨"dash", ExecResult.ok (some ⟨true, pGenericDash⟩)⟩,
   ⟨"hls", ExecResult.ok (some ⟨true, pGenericHls⟩)⟩,
   ⟨"http", ExecResult.ok (some ⟨true, pGenericHttp⟩)⟩]

/-- C1: in any successfully loaded batch, the non-fallback plugins precede
the fallback plugins in registry iteration order, and if a specific plugin
(name outside `dash`/`hls`/`http`) matches the URL then `match_url`
returns a specific plugin — never `http`; if moreover the matching
specific plugin is unique, `match_url` returns exactly it. -/
theorem c1_specific_beats_fallback (mods : List ModuleEntry) (url : String)
    (logs : List LogEvent) (reg : Dict) (n₀ : String) (p₀ : Plugin)
    (hload : StreamlinkPlugins.load_from_path mods = .ok (logs, reg))
    (hmem : (n₀, p₀) ∈ reg) (hspec : n₀ ∉ reservedNames)
    (hmatch : pluginMatches p₀ url = true) :
    (∃ n p, StreamlinkPlugins.match_url reg url = some (n, p) ∧ (n, p) ∈ reg
      ∧ n ∉ reservedNames
      ∧ ((∀ e ∈ reg, pluginMatches e.2 url = true → e = (n₀, p₀) ∨ e.1 ∈ reservedNames) →
          (n, p) = (n₀, p₀)))
    ∧ ∃ sp fb, reg = sp ++ fb ∧ (∀ e ∈ sp, e.1 ∉ reservedNames)
        ∧ (∀ e ∈ fb, e.1 ∈ reservedNames) := by
  obtain ⟨sp, hl, da, ht, hreg, hsp, hhl, hda, hht, hnd⟩ :=
    load_from_path_shape mods logs reg hload
  have hfb : ∀ e ∈ hl ++ da ++ ht, e.1 ∈ reservedNames := by
    intro e he
    rcases List.mem_append.mp he with he' | he3
    · rcases List.mem_append.mp he' with he1 | he2
      · rw [hhl e he1]; simp [reservedNames]
      · rw [hda e he2]; simp [reservedNames]
    · rw [hht e he3]; simp [reservedNames]
  have hreg' : reg = sp ++ (hl ++ da ++ ht) := by
    rw [hreg]; simp [List.append_assoc]
  have hmemsp : (n₀, p₀) ∈ sp := by
    rw [hreg'] at hmem
    rcases List.mem_append.mp hmem with h1 | h2
    · exact h1
    · exact absurd (hfb _ h2) hspec
  have hsome : (sp.find? (fun e => pluginMatches e.2 url)).isSome := by
    rw [List.find?_isSome]
    exact ⟨(n₀, p₀), hmemsp, hmatch⟩
  obtain ⟨e, hfe⟩ := Option.isSome_iff_exists.mp hsome
  have hfind : reg.find? (fun e => pluginMatches e.2 url) = some e := by
    rw [hreg', List.find?_append, hfe]
    rfl
  have hmu : StreamlinkPlugins.match_url reg url = some e := by
    rw [match_url_eq_resolveFirstSpec reg url hnd]
    exact hfind
  have hesp : e ∈ sp := List.mem_of_find?_eq_some hfe
  have hematch : pluginMatches e.2 url = true := by
    have h' := @List.find?_some _ (fun x : String × Plugin => pluginMatches x.2 url) e sp hfe
    simpa using h'
  have hereg : e ∈ reg := by
    rw [hreg']
    exact List.mem_append.mpr (Or.inl hesp)
  refine ⟨⟨e.1, e.2, by simpa using hmu, by simpa using hereg, hsp e hesp, ?_⟩,
    sp, hl ++ da ++ ht, hreg', hsp, hfb⟩
  intro huniq
  rcases huniq e hereg hematch with he0 | hres
  · simpa using he0
  · exact absurd hres (hsp e hesp)

/-- Witness for C1 on the concrete batch `batchC1`. -/
theorem c1_specific_beats_fallback_witness :
    StreamlinkPlugins.load_from_path batchC1
      = .ok ([], [("siteA", pSiteA), ("http", pGenericHttp)])
    ∧ ("siteA", pSiteA) ∈ [("siteA", pSiteA), ("http", pGenericHttp)]
    ∧ "siteA" ∉ reservedNames
    ∧ pluginMatches pSiteA "https://sitea.example/video/1" = true
    ∧ ((∃ n p, StreamlinkPlugins.match_url [("siteA", pSiteA), ("http", pGenericHttp)]
            "https://sitea.example/video/1" = some (n, p)
          ∧ (n, p) ∈ [("siteA", pSiteA), ("http", pGenericHttp)]
          ∧ n ∉ reservedNames
          ∧ ((∀ e ∈ [("siteA", pSiteA), ("http", pGenericHttp)],
                pluginMatches e.2 "https://sitea.example/video/1" = true →
                e = ("siteA", pSiteA) ∨ e.1 ∈ reservedNames) → (n, p) = ("siteA", pSiteA)))
        ∧ ∃ sp fb, [("siteA", pSiteA), ("http", pGenericHttp)] = sp ++ fb
            ∧ (∀ e ∈ sp, e.1 ∉ reservedNames) ∧ (∀ e ∈ fb, e.1 ∈ reservedNames)) :=
  ⟨rfl, by simp, by decide, by decide,
    c1_specific_beats_fallback batchC1 "https://sitea.example/video/1"
      [] [("siteA", pSiteA), ("http", pGenericHttp)] "siteA" pSiteA
      rfl (by simp) (by decide) (by decide)⟩

/-- C2: if a successfully loaded batch contains only fallback names and
its `hls` entry matches the URL, resolution returns the `hls` plugin —
the fallbacks were inserted in the fixed order `hls`, `dash`, `http` and
resolution returns the first match in that order. -/
theorem c2_fallback_order_hls_first (mods : List ModuleEntry) (url : String)
    (logs : List LogEvent) (reg : Dict) (pHls : Plugin)
    (hload : StreamlinkPlugins.load_from_path mods = .ok (logs, reg))
    (hall : ∀ e ∈ reg, e.1 ∈ reservedNames)
    (hhls : ("hls", pHls) ∈ reg)
    (hmatch : pluginMatches pHls url = true) :
    StreamlinkPlugins.match_url reg url = some ("hls", pHls) := by
  obtain ⟨sp, hl, da, ht, hreg, hsp, hhl, hda, hht, hnd⟩ :=
    load_from_path_shape mods logs reg hload
  have hspnil : sp = [] := by
    cases hc : sp with
    | nil => rfl
    | cons a rest =>
      have hmem : a ∈ reg := by
        rw [hreg, hc]
        simp
      exact absurd (hall a hmem) (hsp a (by rw [hc]; exact List.mem_cons_self _ _))
  subst hspnil
  rw [List.nil_append] at hreg
  have hinhl : ("hls", pHls) ∈ hl := by
    rw [hreg] at hhls
    rcases List.mem_append.mp hhls with h1 | h2
    · rcases List.mem_append.mp h1 with h1' | h2'
      · exact h1'
      · have := hda _ h2'
        simp at this
    · have := hht _ h2
      simp at this
  have hhlnd : (hl.map Prod.fst).Nodup := by
    have h1 : nodupKeys (hl ++ da ++ ht) := hreg ▸ hnd
    rw [nodupKeys, List.append_assoc, List.map_append, List.nodup_append] at h1
    exact h1.1
  have hhl1 : hl = [("hls", pHls)] := by
    cases hc : hl with
    | nil => rw [hc] at hinhl; simp at hinhl
    | cons x rest =>
      cases hr : rest with
      | nil =>
        rw [hc, hr] at hinhl
        have hx1 : ("hls", pHls) = x := by simpa using hinhl
        rw [hx1]
      | cons y rest2 =>
        rw [hc, hr] at hhlnd
        have hx : x.1 = "hls" := hhl x (by rw [hc]; exact List.mem_cons_self _ _)
        have hy : y.1 = "hls" := hhl y (by
          rw [hc, hr]
          exact List.mem_cons_of_mem _ (List.mem_cons_self _ _))
        rw [List.map_cons, List.map_cons, List.nodup_cons] at hhlnd
        exact absurd (hx.trans hy.symm) (fun hxy => hhlnd.1 (by
          rw [hxy]
          exact List.mem_cons_self _ _))
  have hregc : reg = ("hls", pHls) :: (da ++ ht) := by
    rw [hreg, hhl1]
    simp
  rw [match_url_eq_resolveFirstSpec reg url hnd, resolveFirstSpec, hregc,
    List.find?_cons_of_pos _ (by simpa using hmatch)]

/-- Witness for C2 on the concrete batch `batchC2`: the loaded registry is
ordered `hls`, `dash`, `http` and resolution returns `hls`. -/
theorem c2_fallback_order_hls_first_witness :
    StreamlinkPlugins.load_from_path batchC2
      = .ok ([], [("hls", pGenericHls), ("dash", pGenericDash), ("http", pGenericHttp)])
    ∧ (∀ e ∈ [("hls", pGenericHls), ("dash", pGenericDash), ("http", pGenericHttp)],
        e.1 ∈ reservedNames)
    ∧ ("hls", pGenericHls) ∈ [("hls", pGenericHls), ("dash", pGenericDash), ("http", pGenericHttp)]
    ∧ pluginMatches pGenericHls "https://sitea.example/video/1" = true
    ∧ StreamlinkPlugins.match_url
        [("hls", pGenericHls), ("dash", pGenericDash), ("http", pGenericHttp)]
        "https://sitea.example/video/1" = some ("hls", pGenericHls) :=
  ⟨rfl, by decide, by simp, by decide,
    c2_fallback_order_hls_first batchC2 "https://sitea.example/video/1"
      [] [("hls", pGenericHls), ("dash", pGenericDash), ("http", pGenericHttp)] pGenericHls
      rfl (by decide) (by simp) (by decide)⟩

/-- The batch used to witness the amended claim C5: one good module, one
module failing with `ImportError`, one module without a `__plugin__`
export, one module whose export is not a `Plugin` subclass. -/
def batchC5 : List ModuleEntry :=
  [⟨"goodsite", ExecResult.ok (some ⟨true, pSiteA⟩)⟩,
   ⟨"brokenimport", ExecResult.importError⟩,
   ⟨"noexport", ExecResult.ok none⟩,
   ⟨"wrongtype", ExecResult.ok (some ⟨false, pGenericHttp⟩)⟩]

/-- The batch of claim C6: it reloads a name that is already registered,
bound to the identical plugin class. -/
def batchC6 : List ModuleEntry := [⟨"foo", ExecResult.ok (some ⟨true, pSiteA⟩)⟩]

/-- Counterexample to C5 as stated: a module whose execution raises a
non-`ImportError` exception is not caught by the `except ImportError`
handler of `_load_plugin_from_finder`, so the whole batch load raises
instead of logging and skipping the module. -/
theorem c5_counterexample_batch_raises :
    StreamlinkPlugins.load_from_path [⟨"boom", ExecResult.raised⟩] = .error ()
    ∧ StreamlinkPlugins.load_path [] [⟨"boom", ExecResult.raised⟩] = .error () :=
  ⟨rfl, rfl⟩

/-- C5 (amended): provided no module of the batch raises a
non-`ImportError` exception, the batch load completes; every module that
fails with `ImportError` is logged as failed and skipped, failure records
stem only from such modules (a module without a recognizable export or
with an invalid plugin class is skipped silently), and every registry
entry comes from a module that actually yields a plugin. -/
theorem c5_amended_load_error_handling (mods : List ModuleEntry)
    (h : ∀ m ∈ mods, m.exec.isRaised = false) :
    ∃ logs reg, StreamlinkPlugins.load_from_path mods = .ok (logs, reg)
      ∧ (∀ m ∈ mods, m.exec = .importError → LogEvent.loadFailed m.name ∈ logs)
      ∧ (∀ n, LogEvent.loadFailed n ∈ logs → ∃ m ∈ mods, m.name = n ∧ m.exec = .importError)
      ∧ (∀ e ∈ reg, ∃ m ∈ mods, m.name = e.1 ∧ yieldsPlugin m = true) := by
  obtain ⟨p, td, th, tt, lg, hgo⟩ := load_from_path_go_ok mods [] [] [] [] [] h
  obtain ⟨hload, hinv, hnd⟩ := load_from_path_merge mods p td th tt lg hgo
  obtain ⟨-, hlog, horig⟩ := load_from_path_go_logs mods [] [] [] [] [] p td th tt lg hgo
  obtain ⟨hfp, hfd, hfh, hft⟩ := load_from_path_go_sources mods [] [] [] [] [] p td th tt lg hgo
  refine ⟨lg, p ++ th ++ td ++ tt, hload, hlog, ?_, ?_⟩
  · intro n hn
    rcases horig n hn with h1 | h2
    · simp at h1
    · exact h2
  · intro e he
    rcases List.mem_append.mp he with h1 | h4
    · rcases List.mem_append.mp h1 with h2 | h3
      · rcases List.mem_append.mp h2 with h5 | h6
        · rcases hfp e h5 with h7 | h8
          · simp at h7
          · exact h8
        · rcases hfh e h6 with h7 | h8
          · simp at h7
          · exact h8
      · rcases hfd e h3 with h7 | h8
        · simp at h7
        · exact h8
    · rcases hft e h4 with h7 | h8
      · simp at h7
      · exact h8

/-- Witness for the amended C5 at the concrete batch `batchC5`. -/
theorem c5_amended_load_error_handling_witness :
    (∀ m ∈ batchC5, m.exec.isRaised = false)
    ∧ ∃ logs reg, StreamlinkPlugins.load_from_path batchC5 = .ok (logs, reg)
      ∧ (∀ m ∈ batchC5, m.exec = .importError → LogEvent.loadFailed m.name ∈ logs)
      ∧ (∀ n, LogEvent.loadFailed n ∈ logs → ∃ m ∈ batchC5, m.name = n ∧ m.exec = .importError)
      ∧ (∀ e ∈ reg, ∃ m ∈ batchC5, m.name = e.1 ∧ yieldsPlugin m = true) :=
  ⟨by decide, c5_amended_load_error_handling batchC5 (by decide)⟩

/-- Counterexample to C6 as stated: reloading an already-registered name
bound to the identical plugin class adds nothing new to the registry
(the registry is unchanged), yet `load_path` still returns `True`. -/
theorem c6_counterexample_true_without_new :
    StreamlinkPlugins.load_path [("foo", pSiteA)] batchC6
      = .ok ([("foo", pSiteA)], true) := rfl

/-- C6 (amended): `load_path` merges the loaded batch into the registry
and returns `bool(plugins)` — true exactly when the batch yielded at
least one plugin definition, regardless of whether any of these
definitions was new to the registry. -/
theorem c6_amended_flag_means_nonempty_batch (reg : Dict) (mods : List ModuleEntry)
    (h : ∀ m ∈ mods, m.exec.isRaised = false) :
    ∃ logs plugins, StreamlinkPlugins.load_from_path mods = .ok (logs, plugins)
      ∧ StreamlinkPlugins.load_path reg mods = .ok (dictUpdate reg plugins, !plugins.isEmpty)
      ∧ ((!plugins.isEmpty) = true ↔ ∃ m ∈ mods, yieldsPlugin m = true) := by
  obtain ⟨p, td, th, tt, lg, hgo⟩ := load_from_path_go_ok mods [] [] [] [] [] h
  obtain ⟨hload, hinv, hnd⟩ := load_from_path_merge mods p td th tt lg hgo
  obtain ⟨hfp, hfd, hfh, hft⟩ := load_from_path_go_sources mods [] [] [] [] [] p td th tt lg hgo
  refine ⟨lg, p ++ th ++ td ++ tt, hload, ?_, ?_, ?_⟩
  · unfold StreamlinkPlugins.load_path
    rw [hload]
  · intro hne
    have hne' : p ++ th ++ td ++ tt ≠ [] := by
      intro hcon
      rw [hcon] at hne
      simp at hne
    obtain ⟨e, he⟩ := List.exists_mem_of_ne_nil _ hne'
    have hsrc : ∃ m ∈ mods, m.name = e.1 ∧ yieldsPlugin m = true := by
      rcases List.mem_append.mp he with h1 | h4
      · rcases List.mem_append.mp h1 with h2 | h3
        · rcases List.mem_append.mp h2 with h5 | h6
          · rcases hfp e h5 with h7 | h8
            · simp at h7
            · exact h8
          · rcases hfh e h6 with h7 | h8
            · simp at h7
            · exact h8
        · rcases hfd e h3 with h7 | h8
          · simp at h7
          · exact h8
      · rcases hft e h4 with h7 | h8
        · simp at h7
        · exact h8
    obtain ⟨m, hm, -, hy⟩ := hsrc
    exact ⟨m, hm, hy⟩
  · intro hex
    obtain ⟨m, hm, hy⟩ := hex
    have hsome := load_from_path_go_nonempty mods [] [] [] [] [] p td th tt lg hgo
      (Or.inr (Or.inr (Or.inr (Or.inr ⟨m, hm, hy⟩))))
    have happ : p ++ th ++ td ++ tt ≠ [] := by
      intro hcon
      rw [List.append_eq_nil, List.append_eq_nil, List.append_eq_nil] at hcon
      obtain ⟨⟨⟨hp0, hh0⟩, hd0⟩, ht0⟩ := hcon
      rcases hsome with h1 | h1 | h1 | h1
      · exact h1 hp0
      · exact h1 hd0
      · exact h1 hh0
      · exact h1 ht0
    cases hq : (p ++ th ++ td ++ tt).isEmpty
    · rfl
    · exact absurd (by simpa using hq) happ

/-- Witness for the amended C6: reloading `batchC6` over a registry that
already holds `foo` still reports `true`. -/
theorem c6_amended_flag_means_nonempty_batch_witness :
    (∀ m ∈ batchC6, m.exec.isRaised = false)
    ∧ ∃ logs plugins, StreamlinkPlugins.load_from_path batchC6 = .ok (logs, plugins)
      ∧ StreamlinkPlugins.load_path [("foo", pSiteA)] batchC6
          = .ok (dictUpdate [("foo", pSiteA)] plugins, !plugins.isEmpty)
      ∧ ((!plugins.isEmpty) = true ↔ ∃ m ∈ batchC6, yieldsPlugin m = true) :=
  ⟨by decide, c6_amended_flag_means_nonempty_batch [("foo", pSiteA)] batchC6 (by decide)⟩

/-- C3: for every registry state and URL, `match_url` returns at most one
`(name, plugin)` pair, and it equals the first-match resolution in registry
iteration order (patterns within one handler are scanned in declaration
order, so a later handler or pattern never overrides an earlier match). -/
theorem c3_first_match_resolution (d : Dict) (url : String) (hnd : nodupKeys d) :
    StreamlinkPlugins.match_url d url = resolveFirstSpec d url
    ∧ ∀ r₁ r₂, StreamlinkPlugins.match_url d url = some r₁ →
        StreamlinkPlugins.match_url d url = some r₂ → r₁ = r₂ := by
  refine ⟨match_url_eq_resolveFirstSpec d url hnd, ?_⟩
  intro r₁ r₂ h₁ h₂
  exact Option.some.inj (h₁ ▸ h₂)

/-- Witness for C3 at a concrete two-plugin registry. -/
theorem c3_first_match_resolution_witness :
    nodupKeys [("siteA", pSiteA), ("http", pGenericHttp)]
    ∧ (StreamlinkPlugins.match_url [("siteA", pSiteA), ("http", pGenericHttp)] "https://sitea.example/video/1"
          = resolveFirstSpec [("siteA", pSiteA), ("http", pGenericHttp)] "https://sitea.example/video/1"
      ∧ ∀ r₁ r₂,
          StreamlinkPlugins.match_url [("siteA", pSiteA), ("http", pGenericHttp)] "https://sitea.example/video/1" = some r₁ →
          StreamlinkPlugins.match_url [("siteA", pSiteA), ("http", pGenericHttp)] "https://sitea.example/video/1" = some r₂ →
          r₁ = r₂) :=
  ⟨by decide, c3_first_match_resolution _ _ (by decide)⟩

/-- Shared helper: when no registered plugin matches, `match_url` is `none`. -/
theorem match_url_none_of_no_match (d : Dict) (url : String)
    (h : ∀ e ∈ d, pluginMatches e.2 url = false) :
    StreamlinkPlugins.match_url d url = none := by
  unfold StreamlinkPlugins.match_url
  rw [find?_iter_matchers]
  have hnone : d.find? (fun e => pluginMatches e.2 url) = none :=
    List.find?_eq_none.mpr (by intro x hx; simp [h x hx])
  rw [hnone]
  rfl

/-- C4: if no registered plugin's matcher set matches the URL, `match_url`
returns `none` (and, being a total function into `Option`, it raises no
exception on any registry contents or URL). -/
theorem c4_no_match_returns_none (d : Dict) (url : String)
    (h : ∀ e ∈ d, pluginMatches e.2 url = false) :
    StreamlinkPlugins.match_url d url = none :=
  match_url_none_of_no_match d url h

/-- Witness for C4: the spec's scenario `resolve("ftp://unrelated/path")`. -/
theorem c4_no_match_returns_none_witness :
    (∀ e ∈ [("siteA", pSiteA), ("http", pGenericHttp)],
        pluginMatches e.2 "ftp://unrelated/path" = false)
    ∧ StreamlinkPlugins.match_url [("siteA", pSiteA), ("http", pGenericHttp)] "ftp://unrelated/path" = none :=
  ⟨by decide, c4_no_match_returns_none _ _ (by decide)⟩

/-! ### C7: override semantics of `__setitem__` -/

/-- A matcher for a different media URL, used as the overriding plugin. -/
def mOtherMedia : Matcher := ⟨fun u => u == "http://media.example/a.mp4"⟩

/-- The plugin that overrides `pSiteA` in the C7 witness. -/
def pOtherMedia : Plugin := ⟨[mOtherMedia]⟩

theorem mem_dictInsert_self (d : Dict) (k : String) (v : Plugin) :
    (k, v) ∈ dictInsert d k v := by
  unfold dictInsert
  by_cases hkk : dictHasKey d k
  · rw [if_pos hkk]
    obtain ⟨a, ha, hak⟩ := List.any_eq_true.mp hkk
    refine List.mem_map.mpr ⟨a, ha, ?_⟩
    rw [if_pos hak]
  · rw [if_neg hkk]
    simp

theorem dictGet?_eq_some_of_mem {d : Dict} {e : String × Plugin}
    (hnd : nodupKeys d) (he : e ∈ d) :
    dictGet? d e.1 = some e.2 := by
  induction d with
  | nil => simp at he
  | cons a rest ih =>
    obtain ⟨hne, hnd'⟩ := nodupKeys_cons hnd
    rcases List.mem_cons.mp he with rfl | her
    · rw [dictGet?_cons]
      simp
    · rw [dictGet?_cons]
      have : a.1 ≠ e.1 := fun heq => hne e her (heq ▸ rfl)
      simp only [beq_iff_eq, this, if_false]
      exact ih hnd' her

theorem hasKey_of_dictGet?_eq_some {d : Dict} {k : String} {v : Plugin}
    (h : dictGet? d k = some v) : dictHasKey d k = true := by
  unfold dictGet? at h
  cases hf : List.find? (fun e => e.1 == k) d with
  | none => rw [hf] at h; simp at h
  | some e =>
    have he : e ∈ d := List.mem_of_find?_eq_some hf
    have hek := @List.find?_some _ (fun e => e.1 == k) e d hf
    exact List.any_eq_true.mpr ⟨e, he, by simpa using hek⟩

/-- C7: `self._plugins[key] = value` on an already-registered name
replaces the prior definition in place — the mapping keeps exactly one
definition per name and the same name set — and afterwards a URL that was
matched only by the old definition (and is not matched by the new one)
resolves to `none`. -/
theorem c7_override_replaces (reg : Dict) (k : String) (oldP newP : Plugin) (url : String)
    (hnd : nodupKeys reg)
    (hk : dictGet? reg k = some oldP)
    (hother : ∀ e ∈ reg, e.1 ≠ k → pluginMatches e.2 url = false)
    (hnew : pluginMatches newP url = false) :
    dictGet? (dictInsert reg k newP) k = some newP
    ∧ (dictInsert reg k newP).map Prod.fst = reg.map Prod.fst
    ∧ nodupKeys (dictInsert reg k newP)
    ∧ StreamlinkPlugins.match_url (dictInsert reg k newP) url = none := by
  have hnd' : nodupKeys (dictInsert reg k newP) := nodupKeys_dictInsert _ _ hnd
  refine ⟨?_, ?_, hnd', ?_⟩
  · exact dictGet?_eq_some_of_mem hnd' (mem_dictInsert_self reg k newP)
  · exact keys_dictInsert_of_hasKey newP (hasKey_of_dictGet?_eq_some hk)
  · refine match_url_none_of_no_match _ url ?_
    intro e he
    rcases mem_dictInsert he with rfl | ⟨hmem, hne⟩
    · exact hnew
    · exact hother e hmem hne

/-- Witness for C7: overriding `siteA` with a plugin that no longer
matches the site URL makes resolution of that URL return `none`. -/
theorem c7_override_replaces_witness :
    nodupKeys [("siteA", pSiteA)]
    ∧ dictGet? [("siteA", pSiteA)] "siteA" = some pSiteA
    ∧ (∀ e ∈ [("siteA", pSiteA)], e.1 ≠ "siteA" →
        pluginMatches e.2 "https://sitea.example/video/1" = false)
    ∧ pluginMatches pOtherMedia "https://sitea.example/video/1" = false
    ∧ (dictGet? (dictInsert [("siteA", pSiteA)] "siteA" pOtherMedia) "siteA" = some pOtherMedia
      ∧ (dictInsert [("siteA", pSiteA)] "siteA" pOtherMedia).map Prod.fst
          = [("siteA", pSiteA)].map Prod.fst
      ∧ nodupKeys (dictInsert [("siteA", pSiteA)] "siteA" pOtherMedia)
      ∧ StreamlinkPlugins.match_url (dictInsert [("siteA", pSiteA)] "siteA" pOtherMedia)
          "https://sitea.example/video/1" = none) :=
  ⟨by decide, rfl, by simp, by decide,
    c7_override_replaces [("siteA", pSiteA)] "siteA" pSiteA pOtherMedia
      "https://sitea.example/video/1" (by decide) rfl (by simp) (by decide)⟩

/-! ### C8: `get_loaded` returns a copy

Python variables hold references to heap objects; `dict(self._plugins)`
in `get_loaded` allocates a fresh dict holding a copy of the current
items, while `update`/`__setitem__`/`__delitem__`/`clear`/`load_path`
mutate the dict object the registry refers to.  A tiny reference/heap
model makes the copy-vs-alias distinction expressible: had `get_loaded`
returned `self._plugins` itself, it would return the registry's own
address and the frame theorem below would fail. -/

/-- Heap address of a dict object. -/
abbrev Addr := Nat

/-- A heap of dict objects; the cell at index `a` is the object at
address `a`. -/
abbrev Heap := List Dict

/-- Dereference an address. -/
def readCell (h : Heap) (a : Addr) : Dict := h.getD a []

/-- Mutate the object at an address in place. -/
def writeCell (h : Heap) (a : Addr) (d : Dict) : Heap := h.set a d

/-- Allocate a fresh dict object, returning its (fresh) address. -/
def alloc (h : Heap) (d : Dict) : Heap × Addr := (h ++ [d], h.length)

namespace StreamlinkPlugins

/-- `StreamlinkPlugins.get_loaded`: `return dict(self._plugins)` — a fresh
dict object holding the current items of the registry's dict. -/
def get_loaded (h : Heap) (reg : Addr) : Heap × Addr := alloc h (readCell h reg)

/-- The mutation operations of the registry (`__setitem__`,
`__delitem__`, `update`, `clear`, `load_path`). -/
inductive MutOp where
  | setItem (k : String) (v : Plugin)
  | delItem (k : String)
  | updateMap (m : Dict)
  | clear
  | loadPathOp (mods : List ModuleEntry)

/-- Apply a registry mutation to the dict object at address `reg`. -/
def applyMut (h : Heap) (reg : Addr) : MutOp → Heap
  | .setItem k v => writeCell h reg (dictInsert (readCell h reg) k v)
  | .delItem k => writeCell h reg (dictPop (readCell h reg) k)
  | .updateMap m => writeCell h reg (dictUpdate (readCell h reg) m)
  | .clear => writeCell h reg []
  | .loadPathOp mods =>
    match load_from_path mods with
    | .error _ => h
    | .ok (_, plugins) => writeCell h reg (dictUpdate (readCell h reg) plugins)

end StreamlinkPlugins

theorem readCell_alloc (h : Heap) (d : Dict) : readCell (h ++ [d]) h.length = d := by
  unfold readCell
  induction h with
  | nil => rfl
  | cons a rest ih => simp [ih]

theorem readCell_writeCell_ne (h : Heap) (a b : Addr) (d : Dict) (hne : b ≠ a) :
    readCell (writeCell h a d) b = readCell h b := by
  unfold readCell writeCell
  rw [List.getD_eq_getElem?_getD, List.getD_eq_getElem?_getD,
    List.getElem?_set_ne (fun hab => hne hab.symm)]

/-- C8: `get_loaded` allocates a fresh object (never the registry's own
dict), the snapshot holds the registry's items at snapshot time, and any
subsequent registry mutation leaves the snapshot object unchanged. -/
theorem c8_snapshot_is_copy (h : Heap) (reg : Addr) (hreg : reg < h.length) :
    (StreamlinkPlugins.get_loaded h reg).2 ≠ reg
    ∧ readCell (StreamlinkPlugins.get_loaded h reg).1 (StreamlinkPlugins.get_loaded h reg).2
        = readCell h reg
    ∧ ∀ op : StreamlinkPlugins.MutOp,
        readCell (StreamlinkPlugins.applyMut (StreamlinkPlugins.get_loaded h reg).1 reg op)
            (StreamlinkPlugins.get_loaded h reg).2
          = readCell h reg := by
  have hsnap : (StreamlinkPlugins.get_loaded h reg).2 = h.length := rfl
  have hne : (StreamlinkPlugins.get_loaded h reg).2 ≠ reg := by
    rw [hsnap]
    exact fun hcon => absurd (hcon ▸ hreg) (Nat.lt_irrefl _)
  have hcopy : readCell (StreamlinkPlugins.get_loaded h reg).1
      (StreamlinkPlugins.get_loaded h reg).2 = readCell h reg :=
    readCell_alloc h (readCell h reg)
  refine ⟨hne, hcopy, ?_⟩
  intro op
  cases op with
  | setItem k v => rw [StreamlinkPlugins.applyMut, readCell_writeCell_ne _ _ _ _ hne]; exact hcopy
  | delItem k => rw [StreamlinkPlugins.applyMut, readCell_writeCell_ne _ _ _ _ hne]; exact hcopy
  | updateMap m => rw [StreamlinkPlugins.applyMut, readCell_writeCell_ne _ _ _ _ hne]; exact hcopy
  | clear => rw [StreamlinkPlugins.applyMut, readCell_writeCell_ne _ _ _ _ hne]; exact hcopy
  | loadPathOp mods =>
    rw [StreamlinkPlugins.applyMut]
    cases hl : StreamlinkPlugins.load_from_path mods with
    | error e => exact hcopy
    | ok r =>
      obtain ⟨lg, plugins⟩ := r
      rw [readCell_writeCell_ne _ _ _ _ hne]
      exact hcopy

/-- Witness for C8 at a one-object heap holding the registry. -/
theorem c8_snapshot_is_copy_witness :
    (0 : Addr) < ([[("siteA", pSiteA)]] : Heap).length
    ∧ ((StreamlinkPlugins.get_loaded [[("siteA", pSiteA)]] 0).2 ≠ 0
      ∧ readCell (StreamlinkPlugins.get_loaded [[("siteA", pSiteA)]] 0).1
          (StreamlinkPlugins.get_loaded [[("siteA", pSiteA)]] 0).2
        = readCell [[("siteA", pSiteA)]] 0
      ∧ ∀ op : StreamlinkPlugins.MutOp,
          readCell (StreamlinkPlugins.applyMut
              (StreamlinkPlugins.get_loaded [[("siteA", pSiteA)]] 0).1 0 op)
              (StreamlinkPlugins.get_loaded [[("siteA", pSiteA)]] 0).2
            = readCell [[("siteA", pSiteA)]] 0) :=
  ⟨by decide, c8_snapshot_is_copy [[("siteA", pSiteA)]] 0 (by decide)⟩

/-! ### C9: `HTTPStream.close` never raises

`src/libs/streamlink/stream/http.py`: `close` runs
`if hasattr(self.res, "close"): try: self.res.close() except: pass` and
the same for `self.fd`. `__init__` sets both fields to `None` (which has
no `close` attribute). The objects later assigned by `open` may raise on
any particular `close()` call, which the bare `except` swallows. -/

/-- An object that may sit in `self.res` / `self.fd`: whether it has a
`close` attribute, whether its `k`-th `close()` call raises, and how many
times `close()` has been called on it so far. -/
structure Closable where
  hasClose : Bool
  raiseOnClose : Nat → Bool
  closeCount : Nat

/-- Call `obj.close()`: the state change and whether this call raised. -/
def Closable.callClose (c : Closable) : Closable × Bool :=
  ({ c with closeCount := c.closeCount + 1 }, c.raiseOnClose c.closeCount)

namespace HTTPStream

/-- The fields of `HTTPStream` that `close` touches: `self.res` and
`self.fd`, each `None` until `open` assigns them. -/
structure State where
  res : Option Closable
  fd : Option Closable

/-- `HTTPStream.__init__`: `self.fd = None`, `self.res = None`. -/
def init : State := ⟨none, none⟩

/-- `if hasattr(x, "close"): try: x.close() except: pass` — the guarded,
exception-swallowing close of one optional field (`hasattr(None, "close")`
is false; the raise flag of `callClose` is discarded by the bare
`except`). -/
def tryCloseAttr (o : Option Closable) : Option Closable × Bool :=
  match o with
  | none => (none, false)
  | some c =>
    if c.hasClose then (some (c.callClose).1, false)
    else (some c, false)

/-- `HTTPStream.close`: close `self.res`, then `self.fd`; the Boolean
records whether the whole call raised. -/
def close (s : State) : State × Bool :=
  (⟨(tryCloseAttr s.res).1, (tryCloseAttr s.fd).1⟩,
    (tryCloseAttr s.res).2 || (tryCloseAttr s.fd).2)

/-- `close` called `n` times in sequence; raises if any call raises. -/
def closeN : Nat → State → State × Bool
  | 0, s => (s, false)
  | n + 1, s => ((closeN n (close s).1).1, (close s).2 || (closeN n (close s).1).2)

end HTTPStream

theorem tryCloseAttr_no_raise (o : Option Closable) :
    (HTTPStream.tryCloseAttr o).2 = false := by
  cases o with
  | none => rfl
  | some c =>
    by_cases hc : c.hasClose <;> simp [HTTPStream.tryCloseAttr, hc]

/-- C9: `HTTPStream.close` never raises and tolerates being called any
number of times from any state — including the freshly constructed state
(`res = fd = None`, i.e. before or after a failed `open`) and states whose
underlying response/stream objects raise on `close()`: the `hasattr`
guard and bare `except` swallow every failure. -/
theorem c9_close_idempotent_never_raises (s : HTTPStream.State) (n : Nat) :
    (HTTPStream.closeN n s).2 = false := by
  induction n generalizing s with
  | zero => rfl
  | succ k ih =>
    unfold HTTPStream.closeN
    have hclose : (HTTPStream.close s).2 = false := by
      unfold HTTPStream.close
      rw [tryCloseAttr_no_raise, tryCloseAttr_no_raise]
      rfl
    rw [hclose, ih (HTTPStream.close s).1]
    rfl

/-! ### C10: `get_names` is sorted -/

namespace StreamlinkPlugins

/-- `StreamlinkPlugins.get_names`: `sorted(self._plugins.keys())` —
Python's `sorted` is a stable ascending sort of the keys, embedded as an
insertion sort by `≤` on strings. -/
def get_names (d : Dict) : List String :=
  List.insertionSort (fun a b => a ≤ b) (d.map Prod.fst)

end StreamlinkPlugins

/-- C10: `get_names` returns the registered names in ascending
lexicographic order, contains exactly the registered names (each exactly
once), and its result is independent of registration order. -/
theorem c10_names_sorted_unique (d : Dict) (hnd : nodupKeys d) :
    List.Sorted (fun a b : String => a ≤ b) (StreamlinkPlugins.get_names d)
    ∧ (∀ n, n ∈ StreamlinkPlugins.get_names d ↔ dictHasKey d n = true)
    ∧ (∀ n, n ∈ StreamlinkPlugins.get_names d → (StreamlinkPlugins.get_names d).count n = 1)
    ∧ (∀ d2, nodupKeys d2 → (d.map Prod.fst).Perm (d2.map Prod.fst) →
        StreamlinkPlugins.get_names d = StreamlinkPlugins.get_names d2) := by
  haveI : IsAntisymm String (fun a b : String => a ≤ b) := ⟨fun _ _ => le_antisymm⟩
  have hperm : ∀ d' : Dict,
      (StreamlinkPlugins.get_names d').Perm (d'.map Prod.fst) :=
    fun d' => List.perm_insertionSort _ _
  have hsorted : ∀ d' : Dict,
      List.Sorted (fun a b : String => a ≤ b) (StreamlinkPlugins.get_names d') :=
    fun d' => List.sorted_insertionSort _ _
  refine ⟨hsorted d, ?_, ?_, ?_⟩
  · intro n
    rw [(hperm d).mem_iff]
    constructor
    · intro hmem
      obtain ⟨e, he, hek⟩ := List.mem_map.mp hmem
      exact List.any_eq_true.mpr ⟨e, he, by simpa using hek⟩
    · intro hkey
      obtain ⟨e, he, hek⟩ := List.any_eq_true.mp hkey
      exact List.mem_map.mpr ⟨e, he, by simpa using hek⟩
  · intro n hmem
    rw [(hperm d).count_eq]
    exact List.count_eq_one_of_mem hnd ((hperm d).mem_iff.mp hmem)
  · intro d2 hnd2 hp
    exact List.eq_of_perm_of_sorted (((hperm d).trans hp).trans (hperm d2).symm)
      (hsorted d) (hsorted d2)

/-- Witness for C10 at a three-plugin registry registered out of order. -/
theorem c10_names_sorted_unique_witness :
    nodupKeys [("http", pGenericHttp), ("dash", pGenericDash), ("siteA", pSiteA)]
    ∧ (List.Sorted (fun a b : String => a ≤ b)
        (StreamlinkPlugins.get_names
          [("http", pGenericHttp), ("dash", pGenericDash), ("siteA", pSiteA)])
      ∧ (∀ n, n ∈ StreamlinkPlugins.get_names
            [("http", pGenericHttp), ("dash", pGenericDash), ("siteA", pSiteA)]
          ↔ dictHasKey [("http", pGenericHttp), ("dash", pGenericDash), ("siteA", pSiteA)] n = true)
      ∧ (∀ n, n ∈ StreamlinkPlugins.get_names
            [("http", pGenericHttp), ("dash", pGenericDash), ("siteA", pSiteA)] →
          (StreamlinkPlugins.get_names
            [("http", pGenericHttp), ("dash", pGenericDash), ("siteA", pSiteA)]).count n = 1)
      ∧ (∀ d2, nodupKeys d2 →
          (([("http", pGenericHttp), ("dash", pGenericDash), ("siteA", pSiteA)] : Dict).map
            Prod.fst).Perm (d2.map Prod.fst) →
          StreamlinkPlugins.get_names
              [("http", pGenericHttp), ("dash", pGenericDash), ("siteA", pSiteA)]
            = StreamlinkPlugins.get_names d2)) :=
  ⟨by decide,
    c10_names_sorted_unique
      [("http", pGenericHttp), ("dash", pGenericDash), ("siteA", pSiteA)] (by decide)⟩

end TVLink
